import Mathlib

/-!
Verification development for the rpx Ren'Py archive codec
(`src/index.js` of the Dynamicaaa/rpx repository).

The JavaScript source is shallowly embedded: buffers become `List Nat`
(one `Nat` per byte), JavaScript numbers that may be `NaN` become `JsNum`,
fallible operations return `Except ErrK`, and the external collaborators
(zlib deflate/inflate and the Python pickle serializer driven through
PyRunner / RPickleX) are abstracted as a `Codecs` record of pure functions;
theorems that need them assume the round-trip laws those libraries satisfy,
and concrete witnesses instantiate `Codecs` with executable toy codecs
defined below.

File-system effects of the writer are modelled as an explicit trace of
`FsOp` operations, and the byte image of the output file is obtained by
replaying those operations with JavaScript positional-write semantics
(`jsWrite`, `jsTrunc`).
-/

namespace Rpx

/-! ## Byte-level helpers -/

/-- Bytes of an ASCII string literal, one `Nat` per character. -/
def strBytes (s : String) : List Nat :=
  s.data.map Char.toNat

/-- Whitespace test matching the characters of the JavaScript regexp
class `\s` that can occur in a single-byte read (space, tab, LF, VT, FF, CR). -/
def isWs (b : Nat) : Bool :=
  b = 32 || b = 9 || b = 10 || b = 11 || b = 12 || b = 13

/-- Everything before the first newline byte; models
`headerString.indexOf('\n')` followed by `substring`. -/
def takeUntilNl (l : List Nat) : List Nat :=
  l.takeWhile (fun b => b ≠ 10)

/-- Accumulator-passing worker for `splitWs`. -/
def splitWsAux : List Nat → List Nat → List (List Nat)
  | [], [] => []
  | [], acc => [acc.reverse]
  | b :: r, acc =>
    if isWs b then
      match acc with
      | [] => splitWsAux r []
      | _ :: _ => acc.reverse :: splitWsAux r []
    else
      splitWsAux r (b :: acc)

/-- Tokens of a byte string, modelling `s.trim().split(/\s+/)` with the
convention that the JavaScript result `['']` on an all-whitespace input
is represented by the empty token list. -/
def splitWs (l : List Nat) : List (List Nat) :=
  splitWsAux l []

theorem splitWsAux_token (t : List Nat) (r acc : List Nat)
    (ht : ∀ b ∈ t, isWs b = false) (hne : acc ≠ [] ∨ t ≠ []) :
    splitWsAux (t ++ 32 :: r) acc = (acc.reverse ++ t) :: splitWs r := by
  induction t generalizing acc with
  | nil =>
    rcases hne with h | h
    · cases acc with
      | nil => exact absurd rfl h
      | cons a as => simp [splitWsAux, splitWs, isWs]
    · exact absurd rfl h
  | cons b t ih =>
    have hb : isWs b = false := ht b (by simp)
    have ht' : ∀ x ∈ t, isWs x = false := fun x hx => ht x (by simp [hx])
    simp only [List.cons_append, splitWsAux, hb, Bool.false_eq_true, if_false, List.append_eq]
    rw [ih (b :: acc) ht' (Or.inl (by simp))]
    simp

theorem splitWsAux_last (t : List Nat) (acc : List Nat)
    (ht : ∀ b ∈ t, isWs b = false) (hne : acc ≠ [] ∨ t ≠ []) :
    splitWsAux t acc = [acc.reverse ++ t] := by
  induction t generalizing acc with
  | nil =>
    rcases hne with h | h
    · cases acc with
      | nil => exact absurd rfl h
      | cons a as => simp [splitWsAux]
    · exact absurd rfl h
  | cons b t ih =>
    have hb : isWs b = false := ht b (by simp)
    have ht' : ∀ x ∈ t, isWs x = false := fun x hx => ht x (by simp [hx])
    simp only [splitWsAux, hb, Bool.false_eq_true, if_false, List.append_eq]
    rw [ih (b :: acc) ht' (Or.inl (by simp))]
    simp

theorem splitWs_two_tokens (t₁ t₂ : List Nat)
    (h₁ : ∀ b ∈ t₁, isWs b = false) (h₂ : ∀ b ∈ t₂, isWs b = false)
    (hne₁ : t₁ ≠ []) (hne₂ : t₂ ≠ []) :
    splitWs (t₁ ++ 32 :: t₂) = [t₁, t₂] := by
  unfold splitWs
  rw [splitWsAux_token t₁ t₂ [] h₁ (Or.inr hne₁)]
  unfold splitWs
  rw [splitWsAux_last t₂ [] h₂ (Or.inr hne₂)]
  simp

theorem splitWs_three_tokens (t₁ t₂ t₃ : List Nat)
    (h₁ : ∀ b ∈ t₁, isWs b = false) (h₂ : ∀ b ∈ t₂, isWs b = false)
    (h₃ : ∀ b ∈ t₃, isWs b = false)
    (hne₁ : t₁ ≠ []) (hne₂ : t₂ ≠ []) (hne₃ : t₃ ≠ []) :
    splitWs (t₁ ++ 32 :: (t₂ ++ 32 :: t₃)) = [t₁, t₂, t₃] := by
  unfold splitWs
  rw [splitWsAux_token t₁ (t₂ ++ 32 :: t₃) [] h₁ (Or.inr hne₁)]
  rw [show splitWs (t₂ ++ 32 :: t₃) = [t₂, t₃] from
    splitWs_two_tokens t₂ t₃ h₂ h₃ hne₂ hne₃]
  simp

theorem takeUntilNl_append (l r : List Nat) (hl : ∀ b ∈ l, b ≠ 10) :
    takeUntilNl (l ++ 10 :: r) = l := by
  induction l with
  | nil => simp [takeUntilNl]
  | cons b t ih =>
    have hb : b ≠ 10 := hl b (by simp)
    have ht : ∀ x ∈ t, x ≠ 10 := fun x hx => hl x (by simp [hx])
    simp [takeUntilNl, hb, List.takeWhile_cons]
    simpa [takeUntilNl] using ih ht

/-! ## Hexadecimal parsing and printing

Models of JavaScript `parseInt(s, 16)` (longest-valid-prefix semantics,
optional sign and `0x` marker, `NaN` on an empty digit run, here `none`)
and of `n.toString(16).toUpperCase().padStart(w, '0')`. -/

/-- Numeric value of one hexadecimal digit byte, or `none`. -/
def hexDigitVal (b : Nat) : Option Nat :=
  if 48 ≤ b ∧ b ≤ 57 then some (b - 48)
  else if 65 ≤ b ∧ b ≤ 70 then some (b - 55)
  else if 97 ≤ b ∧ b ≤ 102 then some (b - 87)
  else none

/-- Greedy accumulation over the longest hexadecimal-digit run, the way
`parseInt` consumes characters until the first invalid one. -/
def hexScan : List Nat → Nat → Nat
  | [], acc => acc
  | b :: r, acc =>
    match hexDigitVal b with
    | some d => hexScan r (acc * 16 + d)
    | none => acc

/-- Value of an all-hex-digit byte list, most significant digit first. -/
def hexVal (l : List Nat) : Nat :=
  hexScan l 0

/-- Strips an optional `0x` / `0X` marker the way `parseInt(s, 16)` does. -/
def strip0x (l : List Nat) : List Nat :=
  match l with
  | a :: b :: r => if a = 48 ∧ (b = 120 ∨ b = 88) then r else l
  | _ => l

/-- Longest-hex-prefix magnitude, `none` when the first character is not a
hexadecimal digit (the `NaN` case of `parseInt`). -/
def jsParseHexMag (l : List Nat) : Option Nat :=
  match l with
  | [] => none
  | b :: t => if (hexDigitVal b).isSome then some (hexScan (b :: t) 0) else none

/-- Model of JavaScript `parseInt(s, 16)`: leading whitespace skipped,
optional sign, optional `0x`, then the longest hexadecimal prefix;
`none` models the `NaN` result when no digit is consumed. -/
def jsParseIntHex (l : List Nat) : Option Int :=
  match l.dropWhile isWs with
  | [] => none
  | b :: r =>
    if b = 45 then (jsParseHexMag (strip0x r)).map (fun v => -(v : Int))
    else if b = 43 then (jsParseHexMag (strip0x r)).map (fun v => (v : Int))
    else (jsParseHexMag (strip0x (b :: r))).map (fun v => (v : Int))

/-- Byte of the uppercase hexadecimal digit `d`. -/
def hexDigitByte (d : Nat) : Nat :=
  if d < 10 then 48 + d else 55 + d

/-- Fuel-driven digit emission for `natToHexU`; structural recursion on the
fuel keeps the definition kernel-reducible, and any fuel with
`n < 16 ^ fuel` (and at least `1`) produces the exact digit string of the
unbounded loop inside `Number.prototype.toString(16)`. -/
def natToHexAux : Nat -> Nat -> List Nat -> List Nat
  | 0, _, acc => acc
  | f + 1, n, acc =>
    if n < 16 then hexDigitByte n :: acc
    else natToHexAux f (n / 16) (hexDigitByte (n % 16) :: acc)

/-- Uppercase hexadecimal digits of `n`, models `n.toString(16).toUpperCase()`. -/
def natToHexU (n : Nat) : List Nat :=
  natToHexAux (n + 1) n []

/-- Left-pads with ASCII `'0'` up to width `w`, models `padStart(w, '0')`. -/
def padZeros (w : Nat) (l : List Nat) : List Nat :=
  List.replicate (w - l.length) 48 ++ l

/-- The 16-character index-offset field of an emitted header. -/
def hex16 (n : Nat) : List Nat :=
  padZeros 16 (natToHexU n)

/-- The 8-character key field of an emitted header. -/
def hex8 (n : Nat) : List Nat :=
  padZeros 8 (natToHexU n)

theorem natToHexU_small (n : Nat) (hn : n < 16) :
    natToHexU n = [hexDigitByte n] := by
  simp [natToHexU, natToHexAux, hn]

theorem natToHexAux_eq (n : Nat) : ∀ f acc, n < 16 ^ f -> 1 <= f ->
    natToHexAux f n acc = natToHexU n ++ acc := by
  induction n using Nat.strong_induction_on with
  | _ n ih =>
    intro f acc hnf hf
    obtain ⟨f', rfl⟩ : ∃ f', f = f' + 1 := ⟨f - 1, by omega⟩
    by_cases hn : n < 16
    · simp [natToHexAux, hn, natToHexU_small n hn]
    · have h16 : 16 <= n := Nat.le_of_not_lt hn
      have hf' : 1 <= f' := by
        rcases Nat.eq_zero_or_pos f' with h0 | h1
        · subst h0; simp at hnf; omega
        · exact h1
      have hdivf : n / 16 < 16 ^ f' := by
        rw [Nat.div_lt_iff_lt_mul (by norm_num)]
        calc n < 16 ^ (f' + 1) := hnf
        _ = 16 ^ f' * 16 := by ring
      have hlt : n / 16 < n := Nat.div_lt_self (by omega) (by norm_num)
      have hdivn : n / 16 < 16 ^ n := lt_trans hlt (Nat.lt_pow_self (by norm_num) n)
      have lhs : natToHexAux (f' + 1) n acc
          = natToHexU (n / 16) ++ hexDigitByte (n % 16) :: acc := by
        simp only [natToHexAux, hn, if_false]
        exact ih (n / 16) hlt f' (hexDigitByte (n % 16) :: acc) hdivf hf'
      have rhs : natToHexU n = natToHexU (n / 16) ++ [hexDigitByte (n % 16)] := by
        show natToHexAux (n + 1) n [] = _
        simp only [natToHexAux, hn, if_false]
        exact ih (n / 16) hlt n [hexDigitByte (n % 16)] hdivn (by omega)
      rw [lhs, rhs]
      simp

theorem natToHexU_large (n : Nat) (hn : 16 <= n) :
    natToHexU n = natToHexU (n / 16) ++ [hexDigitByte (n % 16)] := by
  have hlt : n / 16 < n := Nat.div_lt_self (by omega) (by norm_num)
  have hdivn : n / 16 < 16 ^ n := lt_trans hlt (Nat.lt_pow_self (by norm_num) n)
  show natToHexAux (n + 1) n [] = _
  simp only [natToHexAux, Nat.not_lt.mpr hn, if_false]
  exact natToHexAux_eq (n / 16) n [hexDigitByte (n % 16)] hdivn (by omega)

theorem hexDigitVal_hexDigitByte (d : Nat) (hd : d < 16) :
    hexDigitVal (hexDigitByte d) = some d := by
  interval_cases d <;> simp [hexDigitVal, hexDigitByte]

/-- Every byte emitted by `natToHexU` is an uppercase-hex digit byte. -/
theorem natToHexU_digits (n : Nat) :
    ∀ b ∈ natToHexU n, ∃ d, d < 16 /\ b = hexDigitByte d := by
  induction n using Nat.strong_induction_on with
  | _ n ih =>
    by_cases hn : n < 16
    · rw [natToHexU_small n hn]
      intro b hb
      simp at hb
      exact ⟨n, hn, hb⟩
    · rw [natToHexU_large n (Nat.le_of_not_lt hn)]
      intro b hb
      rcases List.mem_append.mp hb with h | h
      · exact ih (n / 16) (Nat.div_lt_self (by omega) (by norm_num)) b h
      · simp at h
        exact ⟨n % 16, Nat.mod_lt n (by norm_num), h⟩

theorem hexDigitByte_range (d : Nat) (hd : d < 16) :
    (48 <= hexDigitByte d /\ hexDigitByte d <= 57) \/
    (65 <= hexDigitByte d /\ hexDigitByte d <= 70) := by
  unfold hexDigitByte
  by_cases h : d < 10
  · left; simp [h]; omega
  · right; simp [h]; omega

theorem hexScan_append (l m : List Nat) (acc : Nat)
    (hl : ∀ b ∈ l, (hexDigitVal b).isSome) :
    hexScan (l ++ m) acc = hexScan m (hexScan l acc) := by
  induction l generalizing acc with
  | nil => simp [hexScan]
  | cons b t iht =>
    have hb := hl b (by simp)
    obtain ⟨d, hd⟩ := Option.isSome_iff_exists.mp hb
    simp only [List.cons_append, hexScan, hd]
    exact iht (acc * 16 + d) (fun x hx => hl x (by simp [hx]))

theorem hexVal_natToHexU (n : Nat) : hexVal (natToHexU n) = n := by
  induction n using Nat.strong_induction_on with
  | _ n ih =>
    by_cases hn : n < 16
    · rw [natToHexU_small n hn]
      simp [hexVal, hexScan, hexDigitVal_hexDigitByte n hn]
    · have h16 : 16 <= n := Nat.le_of_not_lt hn
      have hdigs : ∀ b ∈ natToHexU (n / 16), (hexDigitVal b).isSome := by
        intro b hb
        obtain ⟨d, hd, rfl⟩ := natToHexU_digits (n / 16) b hb
        simp [hexDigitVal_hexDigitByte d hd]
      rw [natToHexU_large n h16]
      unfold hexVal
      rw [hexScan_append _ _ _ hdigs]
      have : hexScan (natToHexU (n / 16)) 0 = n / 16 := ih (n / 16) (Nat.div_lt_self (by omega) (by norm_num))
      rw [this]
      simp [hexScan, hexDigitVal_hexDigitByte (n % 16) (Nat.mod_lt n (by norm_num))]
      omega

theorem natToHexU_length_le (n : Nat) : ∀ k, 1 <= k -> n < 16 ^ k ->
    (natToHexU n).length <= k := by
  induction n using Nat.strong_induction_on with
  | _ n ih =>
    intro k hk hn
    by_cases h16 : n < 16
    · rw [natToHexU_small n h16]
      simpa using hk
    · have hn16 : 16 <= n := Nat.le_of_not_lt h16
      have hk2 : 2 <= k := by
        by_contra hc
        have : k = 1 := by omega
        subst this
        simp at hn
        omega
      have hdiv : n / 16 < 16 ^ (k - 1) := by
        rw [Nat.div_lt_iff_lt_mul (by norm_num)]
        calc n < 16 ^ k := hn
        _ = 16 ^ (k - 1) * 16 := by
            rw [← Nat.pow_succ]
            congr 1
            omega
      have := ih (n / 16) (Nat.div_lt_self (by omega) (by norm_num)) (k - 1) (by omega) hdiv
      rw [natToHexU_large n hn16]
      simp only [List.length_append, List.length_cons, List.length_nil]
      omega

theorem hexVal_lt (l : List Nat)
    (hl : ∀ b ∈ l, ∃ d, d < 16 ∧ b = hexDigitByte d) :
    hexVal l < 16 ^ l.length := by
  suffices h : ∀ acc, hexScan l acc < (acc + 1) * 16 ^ l.length by
    simpa [hexVal] using h 0
  induction l with
  | nil => intro acc; simp [hexScan]
  | cons b t iht =>
    intro acc
    obtain ⟨d, hd, rfl⟩ := hl b (by simp)
    simp only [hexScan, hexDigitVal_hexDigitByte d hd, List.length_cons]
    have ht := iht (fun x hx => hl x (by simp [hx])) (acc * 16 + d)
    have h2 : acc * 16 + d + 1 <= (acc + 1) * 16 := by omega
    calc hexScan t (acc * 16 + d) < (acc * 16 + d + 1) * 16 ^ t.length := ht
    _ <= ((acc + 1) * 16) * 16 ^ t.length := Nat.mul_le_mul_right _ h2
    _ = (acc + 1) * 16 ^ (t.length + 1) := by ring

/-- A byte produced by `hexDigitByte` on a digit below 16. -/
def isHexByte (b : Nat) : Prop :=
  ∃ d, d < 16 ∧ b = hexDigitByte d

theorem isHexByte_range (b : Nat) (hb : isHexByte b) :
    (48 <= b ∧ b <= 57) ∨ (65 <= b ∧ b <= 70) := by
  obtain ⟨d, hd, rfl⟩ := hb
  exact hexDigitByte_range d hd

theorem isHexByte_not_ws (b : Nat) (hb : isHexByte b) : isWs b = false := by
  rcases isHexByte_range b hb with ⟨h1, h2⟩ | ⟨h1, h2⟩ <;>
    simp [isWs] <;> omega

theorem isHexByte_some (b : Nat) (hb : isHexByte b) :
    (hexDigitVal b).isSome := by
  obtain ⟨d, hd, rfl⟩ := hb
  simp [hexDigitVal_hexDigitByte d hd]

theorem isHexByte_ne_ten (b : Nat) (hb : isHexByte b) : b ≠ 10 := by
  rcases isHexByte_range b hb with ⟨h1, h2⟩ | ⟨h1, h2⟩ <;> omega

theorem strip0x_of_hex (l : List Nat) (hl : ∀ b ∈ l, isHexByte b) :
    strip0x l = l := by
  match l with
  | [] => rfl
  | [a] => rfl
  | a :: b :: r =>
    have hb := hl b (by simp)
    have : ¬(a = 48 ∧ (b = 120 ∨ b = 88)) := by
      rcases isHexByte_range b hb with ⟨h1, h2⟩ | ⟨h1, h2⟩ <;> omega
    simp [strip0x, this]

theorem hexScan_replicate_zero (k : Nat) :
    hexScan (List.replicate k 48) 0 = 0 := by
  induction k with
  | zero => simp [hexScan]
  | succ m ih =>
    have h48 : hexDigitVal 48 = some 0 := by simp [hexDigitVal]
    simp [List.replicate_succ, hexScan, h48, ih]

theorem hexVal_padZeros (w : Nat) (l : List Nat) (hl : ∀ b ∈ l, isHexByte b) :
    hexVal (padZeros w l) = hexVal l := by
  unfold padZeros hexVal
  rw [hexScan_append _ _ _ (by
    intro b hb
    rw [List.eq_of_mem_replicate hb]
    simp [hexDigitVal])]
  rw [hexScan_replicate_zero]

theorem padZeros_hex (w : Nat) (l : List Nat) (hl : ∀ b ∈ l, isHexByte b) :
    ∀ b ∈ padZeros w l, isHexByte b := by
  intro b hb
  rcases List.mem_append.mp hb with h | h
  · rw [List.eq_of_mem_replicate h]
    exact ⟨0, by norm_num, by simp [hexDigitByte]⟩
  · exact hl b h

theorem natToHexU_ne_nil (n : Nat) : natToHexU n ≠ [] := by
  by_cases hn : n < 16
  · rw [natToHexU_small n hn]; simp
  · rw [natToHexU_large n (Nat.le_of_not_lt hn)]; simp

/-- On an all-hex-digit nonempty input, `parseInt(s, 16)` returns exactly
the value of the digits. -/
theorem jsParseIntHex_hex (l : List Nat) (hne : l ≠ [])
    (hl : ∀ b ∈ l, isHexByte b) :
    jsParseIntHex l = some ((hexVal l : Nat) : Int) := by
  match l with
  | [] => exact absurd rfl hne
  | b :: t =>
    have hb := hl b (by simp)
    have hws : isWs b = false := isHexByte_not_ws b hb
    have hb45 : b ≠ 45 := by
      rcases isHexByte_range b hb with ⟨h1, h2⟩ | ⟨h1, h2⟩ <;> omega
    have hb43 : b ≠ 43 := by
      rcases isHexByte_range b hb with ⟨h1, h2⟩ | ⟨h1, h2⟩ <;> omega
    unfold jsParseIntHex
    rw [List.dropWhile_cons]
    simp only [hws, Bool.false_eq_true, if_false]
    simp only [hb45, hb43, if_false]
    rw [strip0x_of_hex (b :: t) hl]
    simp [jsParseHexMag, isHexByte_some b hb, hexVal]

/-- Printing a value below `16 ^ w` as a zero-padded width-`w` uppercase
hex field and reparsing it with `parseInt(s, 16)` is the identity. -/
theorem jsParseIntHex_pad (w n : Nat) (hw : 1 <= w) (hn : n < 16 ^ w) :
    jsParseIntHex (padZeros w (natToHexU n)) = some (n : Int) := by
  have hdigs : ∀ b ∈ natToHexU n, isHexByte b := natToHexU_digits n
  have hpad : ∀ b ∈ padZeros w (natToHexU n), isHexByte b :=
    padZeros_hex w (natToHexU n) hdigs
  have hne : padZeros w (natToHexU n) ≠ [] := by
    unfold padZeros
    intro hc
    have := natToHexU_ne_nil n
    rcases List.append_eq_nil.mp hc with ⟨_, h2⟩
    exact this h2
  rw [jsParseIntHex_hex _ hne hpad, hexVal_padZeros w _ hdigs, hexVal_natToHexU]

theorem hex16_parse (n : Nat) (hn : n < 16 ^ 16) :
    jsParseIntHex (hex16 n) = some (n : Int) :=
  jsParseIntHex_pad 16 n (by norm_num) hn

theorem hex8_parse (n : Nat) (hn : n < 16 ^ 8) :
    jsParseIntHex (hex8 n) = some (n : Int) :=
  jsParseIntHex_pad 8 n (by norm_num) hn

theorem hex16_length (n : Nat) (hn : n < 16 ^ 16) :
    (hex16 n).length = 16 := by
  have := natToHexU_length_le n 16 (by norm_num) hn
  simp [hex16, padZeros]
  omega

theorem hex8_length (n : Nat) (hn : n < 16 ^ 8) :
    (hex8 n).length = 8 := by
  have := natToHexU_length_le n 8 (by norm_num) hn
  simp [hex8, padZeros]
  omega

/-! ## JavaScript number and buffer semantics -/

/-- JavaScript `ToUint32` on an integral number. -/
def jsToUint32 (n : Int) : Nat :=
  (n % 4294967296).toNat

/-- JavaScript `ToInt32` on an integral number. -/
def jsToInt32 (n : Int) : Int :=
  if jsToUint32 n < 2147483648 then (jsToUint32 n : Int)
  else (jsToUint32 n : Int) - 4294967296

/-- The JavaScript binary `^` operator, which works on signed 32-bit views. -/
def jsXorInt32 (a b : Int) : Int :=
  jsToInt32 ((Nat.xor (jsToUint32 a) (jsToUint32 b) : Nat) : Int)

/-- The writer idiom `(a ^ b) >>> 0`: XOR re-read as an unsigned 32-bit value. -/
def jsXorShiftR0 (a b : Int) : Nat :=
  jsToUint32 (jsXorInt32 a b)

theorem jsToUint32_natCast (x : Nat) (hx : x < 4294967296) :
    jsToUint32 (x : Int) = x := by
  unfold jsToUint32
  rw [Int.emod_eq_of_lt (by positivity) (by exact_mod_cast hx)]
  simp

theorem jsToInt32_natCast_small (x : Nat) (hx : x < 2147483648) :
    jsToInt32 (x : Int) = (x : Int) := by
  unfold jsToInt32
  rw [jsToUint32_natCast x (by omega)]
  simp [hx]

theorem jsToUint32_jsToInt32 (n : Int) :
    jsToUint32 (jsToInt32 n) = jsToUint32 n := by
  unfold jsToInt32
  by_cases h : jsToUint32 n < 2147483648
  · simp only [h, if_true]
    exact jsToUint32_natCast _ (by omega)
  · simp only [h, if_false]
    unfold jsToUint32 at *
    have hlt : (n % 4294967296).toNat < 4294967296 := by
      have h1 : n % 4294967296 < 4294967296 := Int.emod_lt_of_pos n (by norm_num)
      have h2 : 0 <= n % 4294967296 := Int.emod_nonneg n (by norm_num)
      omega
    have h2 : 0 <= n % 4294967296 := Int.emod_nonneg n (by norm_num)
    omega

theorem xor_lt_32 (x k : Nat) (hx : x < 4294967296) (hk : k < 4294967296) :
    Nat.xor x k < 4294967296 := by
  have h : Nat.bitwise bne x k < 2 ^ 32 := Nat.bitwise_lt (by norm_num; omega) (by norm_num; omega)
  have he : Nat.xor x k = Nat.bitwise bne x k := rfl
  rw [he]
  norm_num at h
  exact h

/-- The writer-side masking `(x ^ key) >>> 0` agrees with plain `Nat.xor`
for in-range operands. -/
theorem jsXorShiftR0_eq_xor (x k : Nat) (hx : x < 4294967296) (hk : k < 4294967296) :
    jsXorShiftR0 (x : Int) (k : Int) = Nat.xor x k := by
  unfold jsXorShiftR0 jsXorInt32
  rw [jsToUint32_jsToInt32]
  rw [jsToUint32_natCast x hx, jsToUint32_natCast k hk]
  have hxor : Nat.xor x k < 4294967296 := xor_lt_32 x k hx hk
  exact jsToUint32_natCast _ hxor

/-- The reader-side decode `stored ^ key` recovers the original value when
it is below `2 ^ 31`. -/
theorem jsXorInt32_roundtrip (x k : Nat) (hx : x < 2147483648) (hk : k < 4294967296) :
    jsXorInt32 ((Nat.xor x k : Nat) : Int) (k : Int) = (x : Int) := by
  unfold jsXorInt32
  have hxor : Nat.xor x k < 4294967296 := xor_lt_32 x k (by omega) hk
  rw [jsToUint32_natCast _ hxor, jsToUint32_natCast k hk]
  have hcancel : (x.xor k).xor k = x := by
    show (x ^^^ k) ^^^ k = x
    rw [Nat.xor_assoc, Nat.xor_self, Nat.xor_zero]
  rw [hcancel]
  exact jsToInt32_natCast_small x hx

/-- Index clamping used by `TypedArray.prototype.subarray`. -/
def clampIdx (len : Nat) (i : Int) : Nat :=
  if i < 0 then ((len : Int) + i).toNat else min i.toNat len

/-- Model of `buf.subarray(b, e)`. -/
def jsSubarray (l : List Nat) (b e : Int) : List Nat :=
  (l.take (clampIdx l.length e)).drop (clampIdx l.length b)

/-- Model of the one-argument `buf.subarray(b)`. -/
def jsSubarrayFrom (l : List Nat) (b : Int) : List Nat :=
  l.drop (clampIdx l.length b)

theorem clampIdx_natCast (len x : Nat) (hx : x <= len) :
    clampIdx len (x : Int) = x := by
  unfold clampIdx
  have hx0 : ¬((x : Int) < 0) := by omega
  simp [hx0, Int.toNat_natCast]
  omega

theorem jsSubarray_slice (l : List Nat) (o s : Nat) (h : o + s <= l.length) :
    jsSubarray l (o : Int) ((o : Int) + (s : Int)) = (l.drop o).take s := by
  unfold jsSubarray
  have he : ((o : Int) + (s : Int)) = ((o + s : Nat) : Int) := by push_cast; ring
  rw [he, clampIdx_natCast l.length (o + s) h, clampIdx_natCast l.length o (by omega)]
  rw [List.drop_take]
  congr 1
  omega

theorem jsSubarrayFrom_drop (l : List Nat) (o : Nat) (h : o <= l.length) :
    jsSubarrayFrom l (o : Int) = l.drop o := by
  unfold jsSubarrayFrom
  rw [clampIdx_natCast l.length o h]

/-- Positional file write: zero-fill up to `pos`, overwrite `data.length`
bytes, keep the tail. -/
def jsWrite (file : List Nat) (pos : Nat) (data : List Nat) : List Nat :=
  ((file ++ List.replicate (pos - file.length) 0).take pos) ++ data
    ++ file.drop (pos + data.length)

/-- Model of `FileHandle.truncate(n)`. -/
def jsTrunc (file : List Nat) (n : Nat) : List Nat :=
  if n <= file.length then file.take n else file ++ List.replicate (n - file.length) 0

theorem jsWrite_append (file data : List Nat) :
    jsWrite file file.length data = file ++ data := by
  unfold jsWrite
  simp

theorem jsWrite_head (file data : List Nat) (h : data.length <= file.length) :
    jsWrite file 0 data = data ++ file.drop data.length := by
  unfold jsWrite
  simp

theorem jsTrunc_self (file : List Nat) : jsTrunc file file.length = file := by
  simp [jsTrunc]

/-! ## Data model of the reader (class `RPX` in `src/index.js`)

Headers carry JavaScript numbers that can be `NaN` (from `parseInt`) or
absent (`undefined`, when `readHeader` throws after caching the partial
`this.header = { version, data }` object), hence `JsNum` and `Option JsNum`
below. -/

/-- Logical error kinds of the JavaScript `throw new Error(...)` sites. -/
inductive ErrK
  | badHeader
  | unsupported
  | unsupportedVersionOpt
  | offsetBeyondEnd
  | decompressFail
  | badPickle
  | invalidEntry
  | notFound
  | emptyInput
  | outputAlreadyThere
  | sidecarAlreadyThere
  | sidecarMissing
  | invalidKey
  | invalidProto
  | tooLarge32
  | headerPatchMismatch
deriving DecidableEq, Repr

deriving instance DecidableEq for Except

/-- An integral JavaScript number or `NaN`. -/
inductive JsNum
  | nan
  | int (n : Int)
deriving DecidableEq, Repr

/-- The reader header object: `this.header` with fields `version`, `data`,
and possibly-unset numeric fields `offset` and `key`. -/
structure RHeader where
  version : List Nat
  data : List Nat
  offset : Option JsNum
  key : Option JsNum
deriving DecidableEq, Repr

/-- One pickled index segment `(offset, length, prefix?)`; the optional
byte string models the 3-tuple form. -/
abbrev RawSeg := Int × Int × Option (List Nat)

/-- The decoded pickle value: a path-keyed mapping to segment lists, in
insertion order. -/
abbrev RawIndex := List (List Nat × List RawSeg)

/-- The in-memory index built by `decodeXORIndex` / `processRawIndex`:
each path maps to `{ offset, size }` only (the prefix is not kept). -/
abbrev Index := List (List Nat × Int × Int)

/-- Recognised family-1 signature tokens. -/
def rpaSigs1 : List (List Nat) := [strBytes "RPA-1", strBytes "RPA-1.0"]

/-- Recognised family-2 signature tokens. -/
def rpaSigs2 : List (List Nat) := [strBytes "RPA-2", strBytes "RPA-2.0"]

/-- Recognised family-3 signature tokens. -/
def rpaSigs3 : List (List Nat) :=
  [strBytes "RPA-3", strBytes "RPA-3.0", strBytes "RPA-3.2"]

/-- Recognised family-4 signature tokens. -/
def rpaSigs4 : List (List Nat) := [strBytes "RPA-4", strBytes "RPA-4.0"]

/-- Numeric result of `parseInt`, with `none` (`NaN`) mapped to `JsNum.nan`. -/
def jsNumOfParse (o : Option Int) : JsNum :=
  match o with
  | none => JsNum.nan
  | some n => JsNum.int n

/-- The fallback header built when the first token is absent or does not
start with `RPA-`. -/
def fallbackHeader : RHeader :=
  { version := strBytes "RPA-1.0"
  , data := strBytes "RPA-1.0"
  , offset := some (JsNum.int 0)
  , key := some (JsNum.int 0) }

/-- Model of `RPX.readHeader` on the archive bytes: the parse result paired
with the value left in the `this.header` cache (which the code assigns
before the family dispatch, so it is set even on the throwing paths). -/
def rpx_readHeader (buf : List Nat) : Except ErrK RHeader × Option RHeader :=
  let line := takeUntilNl (buf.take 50)
  let toks := splitWs line
  match toks.head? with
  | none => (Except.ok fallbackHeader, some fallbackHeader)
  | some sig =>
    if sig.take 4 = strBytes "RPA-" then
      if sig ∈ rpaSigs1 then
        let h : RHeader :=
          { version := sig, data := line
          , offset := some (JsNum.int 0), key := some (JsNum.int 0) }
        (Except.ok h, some h)
      else if sig ∈ rpaSigs2 then
        match toks.get? 1 with
        | none =>
          (Except.error ErrK.badHeader,
           some { version := sig, data := line, offset := none, key := none })
        | some offTok =>
          let h : RHeader :=
            { version := sig, data := line
            , offset := some (jsNumOfParse (jsParseIntHex offTok))
            , key := some (JsNum.int 0) }
          (Except.ok h, some h)
      else if sig ∈ rpaSigs3 ∨ sig ∈ rpaSigs4 then
        match toks.get? 1, toks.get? 2 with
        | some offTok, some keyTok =>
          let h : RHeader :=
            { version := sig, data := line
            , offset := some (jsNumOfParse (jsParseIntHex offTok))
            , key := some (jsNumOfParse (jsParseIntHex keyTok)) }
          (Except.ok h, some h)
        | _, _ =>
          (Except.error ErrK.badHeader,
           some { version := sig, data := line, offset := none, key := none })
      else
        (Except.error ErrK.unsupported,
         some { version := sig, data := line, offset := none, key := none })
    else
      (Except.ok fallbackHeader, some fallbackHeader)

/-- Memoised entry point: `readHeader` returns the cached header when one
is present (`if (this.header) return this.header`). -/
def rpx_readHeaderCached (cache : Option RHeader) (buf : List Nat) :
    Except ErrK RHeader × Option RHeader :=
  match cache with
  | some h => (Except.ok h, some h)
  | none => rpx_readHeader buf

/-- External byte codecs: zlib (deflate and both inflate modes) and the
pickle serializer / parser pair. `deflate` and `dumps` stand for
`zlib.deflateSync` and the PyRunner `pickle.dumps` channel; `inflate`,
`inflateRaw` and `loads` stand for `zlib.inflate`, `zlib.inflateRaw` and
`RPickleX.loads`, with `none` modelling a thrown error. -/
structure Codecs where
  deflate : List Nat → List Nat
  inflate : List Nat → Option (List Nat)
  inflateRaw : List Nat → Option (List Nat)
  dumps : RawIndex → List Nat
  loads : List Nat → Option RawIndex

/-- Decompression attempt of `parseIndex`: zlib-wrapped inflate first, then
raw inflate, at the given buffer only (the source has no retry loop at
later offsets). -/
def inflateChain (C : Codecs) (b : List Nat) : Option (List Nat) :=
  match C.inflate b with
  | some d => some d
  | none => C.inflateRaw b

/-- First-error-wins mapping, the semantics of the `for ... of` loops with
`throw` in `decodeXORIndex` / `processRawIndex` / the encode loop. -/
def exceptMap (f : α → Except ErrK β) : List α → Except ErrK (List β)
  | [] => Except.ok []
  | a :: t =>
    match f a with
    | Except.error e => Except.error e
    | Except.ok b =>
      match exceptMap f t with
      | Except.error e => Except.error e
      | Except.ok bs => Except.ok (b :: bs)

/-- Model of `decodeXORIndex`: XOR-decodes the first segment of every
entry with the JavaScript signed-32-bit `^`; the optional third tuple
element (prefix bytes) is discarded by the destructuring
`const [offset, size] = entries[0]`. -/
def decodeXORIndex (raw : RawIndex) (key : Int) : Except ErrK Index :=
  exceptMap (fun e =>
    match e.2 with
    | [] => Except.error ErrK.invalidEntry
    | seg :: _ =>
      Except.ok (e.1, jsXorInt32 seg.1 key, jsXorInt32 seg.2.1 key)) raw

/-- Model of `processRawIndex`: keeps the first segment of every entry
verbatim; the prefix bytes are likewise discarded. -/
def processRawIndex (raw : RawIndex) : Except ErrK Index :=
  exceptMap (fun e =>
    match e.2 with
    | [] => Except.error ErrK.invalidEntry
    | seg :: _ => Except.ok (e.1, seg.1, seg.2.1)) raw

/-- Truthiness of `this.header.key` (`undefined` and `NaN` are falsy). -/
def jsKeyTruthy (k : Option JsNum) : Bool :=
  match k with
  | some (JsNum.int n) => n ≠ 0
  | _ => false

/-- The numeric value of a key field for the XOR decode call. -/
def jsKeyVal (k : Option JsNum) : Int :=
  match k with
  | some (JsNum.int n) => n
  | _ => 0

/-- Comparison `indexOffset >= fileBuffer.length` for a `JsNum` offset
(false for `NaN` / `undefined`). -/
def jsNumGe (o : Option JsNum) (len : Nat) : Bool :=
  match o with
  | some (JsNum.int n) => (len : Int) <= n
  | _ => false

/-- The argument handed to `fileBuffer.subarray(indexOffset)`:
`NaN` and `undefined` coerce to `0` inside `subarray`. -/
def jsNumSubarrayArg (o : Option JsNum) : Int :=
  match o with
  | some (JsNum.int n) => n
  | _ => 0

/-- Model of `RPX.parseIndex`. For family-1 archives the compressed index
comes from the sidecar `.rpi` file (`none` models a missing file, which
throws); all other families slice the archive at the header offset. -/
def rpx_parseIndex (C : Codecs) (buf : List Nat) (sidecar : Option (List Nat))
    (h : RHeader) : Except ErrK Index :=
  if h.version ∈ rpaSigs1 then
    match sidecar with
    | none => Except.error ErrK.sidecarMissing
    | some ib =>
      match inflateChain C ib with
      | none => Except.error ErrK.decompressFail
      | some d =>
        match C.loads d with
        | none => Except.error ErrK.badPickle
        | some raw => processRawIndex raw
  else
    if jsNumGe h.offset buf.length then Except.error ErrK.offsetBeyondEnd
    else
      let ib := jsSubarrayFrom buf (jsNumSubarrayArg h.offset)
      match inflateChain C ib with
      | none => Except.error ErrK.decompressFail
      | some d =>
        match C.loads d with
        | none => Except.error ErrK.badPickle
        | some raw =>
          if jsKeyTruthy h.key then decodeXORIndex raw (jsKeyVal h.key)
          else processRawIndex raw

/-- First-match association lookup, the object property access
`this.index[fileName]`. -/
def assocFind (idx : Index) (p : List Nat) : Option (Int × Int) :=
  match idx with
  | [] => none
  | e :: r => if e.1 = p then some e.2 else assocFind r p

/-- Header parse followed by index parse, the code path taken by
`listFiles` / `extractFile` / `extractAll` on a fresh instance. -/
def rpx_readIndex (C : Codecs) (buf : List Nat) (sidecar : Option (List Nat)) :
    Except ErrK Index :=
  match (rpx_readHeader buf).1 with
  | Except.error e => Except.error e
  | Except.ok h => rpx_parseIndex C buf sidecar h

/-- Model of `RPX.listFiles`: the index keys in insertion order. -/
def rpx_listFiles (C : Codecs) (buf : List Nat) (sidecar : Option (List Nat)) :
    Except ErrK (List (List Nat)) :=
  match rpx_readIndex C buf sidecar with
  | Except.error e => Except.error e
  | Except.ok idx => Except.ok (idx.map Prod.fst)

/-- Model of `RPX.extractFile`: the bytes written to `outputPath`, namely
`fileBuffer.subarray(offset, offset + size)` — with no prefix prepended. -/
def rpx_extractFile (C : Codecs) (buf : List Nat) (sidecar : Option (List Nat))
    (p : List Nat) : Except ErrK (List Nat) :=
  match rpx_readIndex C buf sidecar with
  | Except.error e => Except.error e
  | Except.ok idx =>
    match assocFind idx p with
    | none => Except.error ErrK.notFound
    | some os => Except.ok (jsSubarray buf os.1 (os.1 + os.2))

/-! ## Writer model (`createArchive` and helpers in `src/index.js`) -/

/-- Family metadata returned by `normalizeRpaVersion`. -/
structure VersionInfo where
  header : List Nat
  separateIndex : Bool
  usesXor : Bool
  defaultKey : Nat
  defaultProtocol : Int
  defaultMarker : Bool
  allowMarker : Bool
deriving DecidableEq, Repr

/-- Whitespace trim on the character list of a version string, the
`trim()` step of `normalizeRpaVersion`. -/
def trimChars (l : List Char) : List Char :=
  ((l.dropWhile Char.isWhitespace).reverse.dropWhile Char.isWhitespace).reverse

/-- ASCII uppercase of one character, the `toUpperCase()` step. -/
def upChar (c : Char) : Char :=
  if 'a' <= c ∧ c <= 'z' then Char.ofNat (c.toNat - 32) else c

/-- Family record for RPA-1.0. -/
def viFamily1 : VersionInfo :=
  { header := strBytes "RPA-1.0", separateIndex := true, usesXor := false
  , defaultKey := 0, defaultProtocol := 2
  , defaultMarker := false, allowMarker := false }

/-- Family record for RPA-2.0. -/
def viFamily2 : VersionInfo :=
  { header := strBytes "RPA-2.0", separateIndex := false, usesXor := false
  , defaultKey := 0, defaultProtocol := 2
  , defaultMarker := false, allowMarker := false }

/-- Family record for RPA-3.0. -/
def viFamily3 : VersionInfo :=
  { header := strBytes "RPA-3.0", separateIndex := false, usesXor := true
  , defaultKey := 0x42424242, defaultProtocol := 2
  , defaultMarker := true, allowMarker := true }

/-- Family record for RPA-3.2 (tag only differs from 3.0). -/
def viFamily32 : VersionInfo :=
  { header := strBytes "RPA-3.2", separateIndex := false, usesXor := true
  , defaultKey := 0x42424242, defaultProtocol := 2
  , defaultMarker := true, allowMarker := true }

/-- Family record for RPA-4.0. -/
def viFamily4 : VersionInfo :=
  { header := strBytes "RPA-4.0", separateIndex := false, usesXor := true
  , defaultKey := 0x42, defaultProtocol := 4
  , defaultMarker := true, allowMarker := true }

/-- Model of `normalizeRpaVersion` (trim, uppercase, mapping table). -/
def normalizeRpaVersion (version : String) : Except ErrK VersionInfo :=
  let raw := (trimChars version.data).map upChar
  if raw ∈ ["1".data, "1.0".data, "RPA-1".data, "RPA-1.0".data] then
    Except.ok viFamily1
  else if raw ∈ ["2".data, "2.0".data, "RPA-2".data, "RPA-2.0".data] then
    Except.ok viFamily2
  else if raw ∈ ["3".data, "3.0".data, "RPA-3".data, "RPA-3.0".data] then
    Except.ok viFamily3
  else if raw ∈ ["3.2".data, "RPA-3.2".data] then
    Except.ok viFamily32
  else if raw ∈ ["4".data, "4.0".data, "RPA-4".data, "RPA-4.0".data] then
    Except.ok viFamily4
  else Except.error ErrK.unsupportedVersionOpt

/-- `normalizeRpaVersion` can only produce the five family records. -/
theorem normalizeRpaVersion_shape (v : String) (vi : VersionInfo)
    (h : normalizeRpaVersion v = Except.ok vi) :
    vi = viFamily1 ∨ vi = viFamily2 ∨ vi = viFamily3 ∨ vi = viFamily32
      ∨ vi = viFamily4 := by
  unfold normalizeRpaVersion at h
  simp only [] at h
  split_ifs at h <;> cases h <;> simp

/-- The `key` option of `createArchive`: absent, a string, or a number. -/
inductive KeyArg
  | undef
  | str (s : List Nat)
  | num (n : Int)
deriving DecidableEq, Repr

/-- Whitespace trim from both ends, `String.prototype.trim` on bytes. -/
def trimBytes (l : List Nat) : List Nat :=
  ((l.dropWhile isWs).reverse.dropWhile isWs).reverse

/-- ASCII lowercase of a byte, for the `toLowerCase().startsWith('0x')`
test of `parseXorKey`. -/
def lowerByte (b : Nat) : Nat :=
  if 65 <= b ∧ b <= 90 then b + 32 else b

/-- Whether an already-lowercased text starts with `0x`. -/
def startsWith0x (l : List Nat) : Bool :=
  match l with
  | a :: b :: _ => a = 48 ∧ b = 120
  | _ => false

/-- Model of `parseXorKey`. -/
def parseXorKey (v : KeyArg) (fallback : Nat) (enabled : Bool) : Except ErrK Nat :=
  if ¬ enabled then Except.ok 0
  else
    match v with
    | KeyArg.undef => Except.ok (fallback % 4294967296)
    | KeyArg.num n => Except.ok (jsToUint32 n)
    | KeyArg.str s =>
      if s = [] then Except.ok (fallback % 4294967296)
      else
        let text := trimBytes s
        let normalized := if startsWith0x (text.map lowerByte) then text
          else 48 :: 120 :: text
        match jsParseIntHex normalized with
        | none => Except.error ErrK.invalidKey
        | some i => Except.ok (jsToUint32 i)

/-- One input file handed to the writer: the logical forward-slash path,
the size reported by `fs.stat` during collection, and the bytes later read
by `fs.readFile` (kept separate, exactly as the code does). -/
structure InFile where
  rel : List Nat
  size : Nat
  content : List Nat
deriving DecidableEq, Repr

/-- One laid-out record of the writer loop. -/
structure PlacedRec where
  rel : List Nat
  size : Nat
  content : List Nat
  dataOffset : Nat
  markerOffset : Option Nat
deriving DecidableEq, Repr

/-- The 17 marker bytes of `MARKER_BUFFER` (the ASCII text
`Made with Ren` + apostrophe + `Py.`). -/
def MARKER : List Nat :=
  [77, 97, 100, 101, 32, 119, 105, 116, 104, 32, 82, 101, 110, 39, 80, 121, 46]

/-- The single-pass layout loop of `createArchive`: returns the records
and the final cursor (the index offset for embedded families). -/
def layoutRecs (useMarker : Bool) (c : Nat) : List InFile → List PlacedRec × Nat
  | [] => ([], c)
  | f :: fs =>
    let mlen := if useMarker then MARKER.length else 0
    let r : PlacedRec :=
      { rel := f.rel, size := f.size, content := f.content
      , dataOffset := c + mlen
      , markerOffset := if useMarker then some c else none }
    let rest := layoutRecs useMarker (c + mlen + f.size) fs
    (r :: rest.1, rest.2)

/-- The XOR-masking loop over `indexEntries`, with the 32-bit guard that
throws `Archive is too large for 32-bit XOR obfuscation`. Every emitted
segment is the 2-tuple form (`prefix: null`). -/
def encodeIndex (usesXor : Bool) (key : Nat) (recs : List PlacedRec) :
    Except ErrK RawIndex :=
  if usesXor then
    exceptMap (fun r =>
      if r.dataOffset > 0xFFFFFFFF ∨ r.size > 0xFFFFFFFF then
        Except.error ErrK.tooLarge32
      else
        Except.ok (r.rel,
          [(((jsXorShiftR0 (r.dataOffset : Int) (key : Int) : Nat) : Int),
            ((jsXorShiftR0 (r.size : Int) (key : Int) : Nat) : Int),
            (none : Option (List Nat)))])) recs
  else
    exceptMap (fun r =>
      Except.ok (r.rel, [((r.dataOffset : Int), (r.size : Int),
        (none : Option (List Nat)))])) recs

/-- The fixed-width header placeholder reserved at byte 0. -/
def headerPlaceholder (vi : VersionInfo) : List Nat :=
  vi.header ++ 32 :: List.replicate 16 48
    ++ (if vi.usesXor then 32 :: List.replicate 8 48 else []) ++ [10]

/-- The final header line patched over the placeholder. -/
def mkHeaderLine (vi : VersionInfo) (off : Nat) (key : Nat) : List Nat :=
  vi.header ++ 32 :: hex16 off
    ++ (if vi.usesXor then 32 :: hex8 key else []) ++ [10]

/-- File-system targets touched by the writer. -/
inductive FTgt
  | out
  | sidecar
  | tmp
deriving DecidableEq, Repr

/-- One file-system operation of the writer, in program order. `tmp` and
`rename` exist so that a temp-file-and-rename discipline is expressible;
the code never emits them. -/
inductive FsOp
  | mkdirDir (t : FTgt)
  | openW (t : FTgt)
  | openRW (t : FTgt)
  | writeAt (t : FTgt) (pos : Nat) (data : List Nat)
  | trunc (t : FTgt) (n : Nat)
  | close (t : FTgt)
  | rename (src : FTgt) (dst : FTgt)
deriving DecidableEq, Repr

/-- Replay of one operation on the byte image of the output file.
`openW` has `O_TRUNC` semantics. -/
def applyOutOp (f : List Nat) : FsOp → List Nat
  | FsOp.openW FTgt.out => []
  | FsOp.writeAt FTgt.out pos data => jsWrite f pos data
  | FsOp.trunc FTgt.out n => jsTrunc f n
  | _ => f

/-- The byte image of the output file after a trace. -/
def runOps (ops : List FsOp) : List Nat :=
  ops.foldl applyOutOp []

/-- Whether an operation mutates the bytes of the output file. -/
def mutatesOut : FsOp → Bool
  | FsOp.openW FTgt.out => true
  | FsOp.writeAt FTgt.out _ _ => true
  | FsOp.trunc FTgt.out _ => true
  | FsOp.rename _ FTgt.out => true
  | _ => false

/-- Options of `createArchive` that the model needs, plus the two
file-existence facts the code reads with `fs.existsSync`. -/
structure CreateOpts where
  version : String
  key : KeyArg
  pickleProto : Option Int
  marker : Option Bool
  force : Bool
  outputExists : Bool
  sidecarExists : Bool
deriving Repr

/-- Result summary of a successful `createArchive`, plus the byte images
the trace produced. -/
structure CreateResult where
  header : List Nat
  image : List Nat
  sidecar : Option (List Nat)
  fileCount : Nat
  dataBytes : Nat
  key : Option Nat
  indexOffset : Option Nat
deriving DecidableEq, Repr

/-- The marker toggle: forced value, else the family default, and `false`
for families that do not allow markers. -/
def chooseMarker (vi : VersionInfo) (marker : Option Bool) : Bool :=
  if vi.allowMarker then
    (match marker with
     | some m => m
     | none => vi.defaultMarker)
  else false

/-- The initial cursor: zero for sidecar families, else the reserved
header-placeholder width. -/
def writerStart (vi : VersionInfo) : Nat :=
  if vi.separateIndex then 0 else (headerPlaceholder vi).length

/-- The pickle protocol finally used. -/
def chooseProtocol (vi : VersionInfo) (o : Option Int) : Int :=
  match o with
  | some p => p
  | none => vi.defaultProtocol

/-- The payload/marker/index write operations of the embedded-family loop. -/
def bodyOps (recs : List PlacedRec) : List FsOp :=
  recs.flatMap (fun r =>
    (match r.markerOffset with
     | some mo => [FsOp.writeAt FTgt.out mo MARKER]
     | none => []) ++ [FsOp.writeAt FTgt.out r.dataOffset r.content])

/-- The body bytes the writer lays down for the input files: optional
marker then payload, in input order. -/
def bodyBytes (um : Bool) (files : List InFile) : List Nat :=
  files.flatMap (fun f => (if um then MARKER else []) ++ f.content)

/-- Operation trace of the embedded-family branch before the header patch. -/
def embOps (vi : VersionInfo) (recs : List PlacedRec) (idxOff : Nat)
    (comp : List Nat) : List FsOp :=
  FsOp.mkdirDir FTgt.out :: FsOp.openW FTgt.out ::
    FsOp.writeAt FTgt.out 0 (headerPlaceholder vi) :: bodyOps recs
    ++ [FsOp.writeAt FTgt.out idxOff comp,
        FsOp.trunc FTgt.out (idxOff + comp.length),
        FsOp.close FTgt.out]

/-- Complete embedded-family trace including the header patch. -/
def embOpsPatched (vi : VersionInfo) (recs : List PlacedRec) (idxOff : Nat)
    (comp : List Nat) (key : Nat) : List FsOp :=
  embOps vi recs idxOff comp
    ++ [FsOp.openRW FTgt.out,
        FsOp.writeAt FTgt.out 0 (mkHeaderLine vi idxOff key),
        FsOp.close FTgt.out]

/-- Operation trace of the family-1 branch on the archive file itself. -/
def sideOps (recs : List PlacedRec) (idxOff : Nat) : List FsOp :=
  FsOp.mkdirDir FTgt.out :: FsOp.openW FTgt.out ::
    recs.map (fun r => FsOp.writeAt FTgt.out r.dataOffset r.content)
    ++ [FsOp.trunc FTgt.out idxOff, FsOp.close FTgt.out]

/-- Complete family-1 trace including the sidecar index write. -/
def sideOpsFull (recs : List PlacedRec) (idxOff : Nat) (comp : List Nat) :
    List FsOp :=
  sideOps recs idxOff
    ++ [FsOp.mkdirDir FTgt.sidecar, FsOp.openW FTgt.sidecar,
        FsOp.writeAt FTgt.sidecar 0 comp, FsOp.close FTgt.sidecar]

/-- Model of `createArchive`. Returns the trace of file-system operations
performed before returning or throwing, and the outcome. The input list
stands for the `collectInputEntries` result (path-sorted, forward-slash
relative paths); `C.dumps` and `C.deflate` stand for `pickleIndexData` and
`zlib.deflateSync`. -/
def createArchive (C : Codecs) (files : List InFile) (opts : CreateOpts) :
    List FsOp × Except ErrK CreateResult :=
  match normalizeRpaVersion opts.version with
  | Except.error e => ([], Except.error e)
  | Except.ok vi =>
    if files.length = 0 then ([], Except.error ErrK.emptyInput)
    else if opts.outputExists ∧ ¬ opts.force then
      ([], Except.error ErrK.outputAlreadyThere)
    else
      let ops0 : List FsOp := [FsOp.mkdirDir FTgt.out]
      let useMarker := chooseMarker vi opts.marker
      match parseXorKey opts.key vi.defaultKey vi.usesXor with
      | Except.error e => (ops0, Except.error e)
      | Except.ok xorKey =>
        if chooseProtocol vi opts.pickleProto < 0 then
          (ops0, Except.error ErrK.invalidProto)
        else
          let laid := layoutRecs useMarker (writerStart vi) files
          let records := laid.1
          let indexOffset := laid.2
          match encodeIndex vi.usesXor xorKey records with
          | Except.error e => (ops0, Except.error e)
          | Except.ok encIdx =>
            let compressed := C.deflate (C.dumps encIdx)
            if vi.separateIndex then
              if opts.sidecarExists ∧ ¬ opts.force then
                (sideOps records indexOffset,
                 Except.error ErrK.sidecarAlreadyThere)
              else
                let ops := sideOpsFull records indexOffset compressed
                (ops, Except.ok
                  { header := vi.header
                  , image := runOps ops
                  , sidecar := some compressed
                  , fileCount := records.length
                  , dataBytes := (files.map InFile.size).sum
                  , key := none
                  , indexOffset := none })
            else
              if (mkHeaderLine vi indexOffset xorKey).length
                  ≠ (headerPlaceholder vi).length then
                (embOps vi records indexOffset compressed,
                 Except.error ErrK.headerPatchMismatch)
              else
                let ops := embOpsPatched vi records indexOffset compressed xorKey
                (ops, Except.ok
                  { header := vi.header
                  , image := runOps ops
                  , sidecar := none
                  , fileCount := records.length
                  , dataBytes := (files.map InFile.size).sum
                  , key := if vi.usesXor then some xorKey else none
                  , indexOffset := some indexOffset })

/-! ## Executable toy codecs

Concrete instantiations of the abstract `Codecs` used by witnesses: a
trivially invertible one-byte-header "zlib" pair and a length-prefixed
serializer for `RawIndex`. They satisfy exactly the round-trip laws that
the real zlib / pickle collaborators provide. -/

/-- Toy deflate: tags the payload with the zlib-style first byte `0x78`. -/
def toyDeflate (l : List Nat) : List Nat := 120 :: l

/-- Toy zlib-wrapped inflate: accepts only the `0x78` tag. -/
def toyInflate (l : List Nat) : Option (List Nat) :=
  match l with
  | 120 :: r => some r
  | _ => none

/-- Toy raw inflate: accepts a different tag, so junk defeats both modes. -/
def toyInflateRaw (l : List Nat) : Option (List Nat) :=
  match l with
  | 121 :: r => some r
  | _ => none

/-- Sign-interleaved integer code. -/
def encInt (i : Int) : Nat :=
  if i < 0 then 2 * (-i).toNat - 1 else 2 * i.toNat

/-- Inverse of `encInt`. -/
def decInt (n : Nat) : Int :=
  if n % 2 = 0 then ((n / 2 : Nat) : Int) else -(((n + 1) / 2 : Nat) : Int)

theorem decInt_encInt (i : Int) : decInt (encInt i) = i := by
  unfold encInt decInt
  by_cases h : i < 0
  · simp only [h, if_true]
    have h1 : 1 <= (-i).toNat := by omega
    have h2 : (2 * (-i).toNat - 1) % 2 = 1 := by omega
    simp only [h2]
    norm_num
    omega
  · simp only [h, if_false]
    have h2 : 2 * i.toNat % 2 = 0 := by omega
    simp only [h2]
    norm_num
    omega

/-- Length-prefixed byte string. -/
def encBytes (l : List Nat) : List Nat := l.length :: l

/-- Tagged optional byte string. -/
def encOptBytes : Option (List Nat) → List Nat
  | none => [0]
  | some l => 1 :: encBytes l

/-- One segment. -/
def encSeg (s : RawSeg) : List Nat :=
  encInt s.1 :: encInt s.2.1 :: encOptBytes s.2.2

/-- One index entry. -/
def encEntry (e : List Nat × List RawSeg) : List Nat :=
  encBytes e.1 ++ e.2.length :: e.2.flatMap encSeg

/-- Toy pickle dump of a raw index. -/
def toyDumps (r : RawIndex) : List Nat :=
  r.length :: r.flatMap encEntry

/-- Stream parser for `encBytes`. -/
def decBytes : List Nat → Option (List Nat × List Nat)
  | [] => none
  | n :: rest =>
    if n <= rest.length then some (rest.take n, rest.drop n) else none

/-- Stream parser for `encOptBytes`. -/
def decOptBytes : List Nat → Option (Option (List Nat) × List Nat)
  | 0 :: rest => some (none, rest)
  | 1 :: rest => (decBytes rest).map (fun p => (some p.1, p.2))
  | _ => none

/-- Stream parser for `encSeg`. -/
def decSeg (l : List Nat) : Option (RawSeg × List Nat) :=
  match l with
  | a :: b :: rest =>
    (decOptBytes rest).map (fun p => ((decInt a, decInt b, p.1), p.2))
  | _ => none

/-- Counted sequence of segments. -/
def decSegs : Nat → List Nat → Option (List RawSeg × List Nat)
  | 0, l => some ([], l)
  | n + 1, l =>
    match decSeg l with
    | none => none
    | some (s, rest) =>
      match decSegs n rest with
      | none => none
      | some (ss, rest2) => some (s :: ss, rest2)

/-- Stream parser for `encEntry`. -/
def decEntry (l : List Nat) : Option ((List Nat × List RawSeg) × List Nat) :=
  match decBytes l with
  | none => none
  | some (p, rest) =>
    match rest with
    | [] => none
    | n :: rest2 =>
      match decSegs n rest2 with
      | none => none
      | some (ss, rest3) => some ((p, ss), rest3)

/-- Counted sequence of entries. -/
def decEntries : Nat → List Nat → Option (RawIndex × List Nat)
  | 0, l => some ([], l)
  | n + 1, l =>
    match decEntry l with
    | none => none
    | some (e, rest) =>
      match decEntries n rest with
      | none => none
      | some (es, rest2) => some (e :: es, rest2)

/-- Toy pickle load, inverse of `toyDumps`. -/
def toyLoads (l : List Nat) : Option RawIndex :=
  match l with
  | [] => none
  | n :: rest =>
    match decEntries n rest with
    | some (r, []) => some r
    | _ => none

/-- The executable codec pack used by the witnesses. -/
def toyCodecs : Codecs :=
  { deflate := toyDeflate, inflate := toyInflate, inflateRaw := toyInflateRaw
  , dumps := toyDumps, loads := toyLoads }

theorem toyInflate_toyDeflate (x : List Nat) :
    toyInflate (toyDeflate x) = some x := rfl

theorem toyDeflate_length_pos (x : List Nat) : 0 < (toyDeflate x).length := by
  simp [toyDeflate]

theorem decBytes_enc (l r : List Nat) :
    decBytes (encBytes l ++ r) = some (l, r) := by
  simp [decBytes, encBytes]

theorem decOptBytes_enc (o : Option (List Nat)) (r : List Nat) :
    decOptBytes (encOptBytes o ++ r) = some (o, r) := by
  cases o with
  | none => simp [encOptBytes, decOptBytes]
  | some l => simp [encOptBytes, decOptBytes, decBytes_enc]

theorem decSeg_enc (s : RawSeg) (r : List Nat) :
    decSeg (encSeg s ++ r) = some (s, r) := by
  obtain ⟨a, b, o⟩ := s
  simp [encSeg, decSeg, decOptBytes_enc, decInt_encInt]

theorem decSegs_enc (ss : List RawSeg) (r : List Nat) :
    decSegs ss.length (ss.flatMap encSeg ++ r) = some (ss, r) := by
  induction ss generalizing r with
  | nil => simp [decSegs]
  | cons s t ih =>
    simp only [List.length_cons, List.flatMap_cons, List.append_assoc, decSegs]
    rw [decSeg_enc s (t.flatMap encSeg ++ r)]
    dsimp only
    rw [ih r]

theorem decEntry_enc (e : List Nat × List RawSeg) (r : List Nat) :
    decEntry (encEntry e ++ r) = some (e, r) := by
  obtain ⟨p, ss⟩ := e
  simp only [encEntry, decEntry, List.append_assoc, List.cons_append]
  rw [decBytes_enc p (ss.length :: (ss.flatMap encSeg ++ r))]
  simp only
  rw [decSegs_enc ss r]

theorem decEntries_enc (es : RawIndex) (r : List Nat) :
    decEntries es.length (es.flatMap encEntry ++ r) = some (es, r) := by
  induction es generalizing r with
  | nil => simp [decEntries]
  | cons e t ih =>
    simp only [List.length_cons, List.flatMap_cons, List.append_assoc, decEntries]
    rw [decEntry_enc e (t.flatMap encEntry ++ r)]
    dsimp only
    rw [ih r]

theorem toyLoads_toyDumps (x : RawIndex) : toyLoads (toyDumps x) = some x := by
  unfold toyDumps toyLoads
  have h := decEntries_enc x []
  simp only [List.append_nil] at h
  simp [h]

/-! ## Claim C6: XOR masking round-trip -/

/-- C6 (amended). Writer-side masking `(x ^ key) >>> 0` stores
`Nat.xor x key`, and the reader-side decode `stored ^ key` (JavaScript
signed 32-bit XOR) recovers the original offset and length whenever they
are below `2 ^ 31`. (For values in `[2 ^ 31, 2 ^ 32)` the reader instead
returns the value reinterpreted as a signed 32-bit integer, i.e. value
minus `2 ^ 32`; see the counterexample.) The concrete family-4 scenario of
the claim — offset `0x01020304`, length `0x05`, key `0x42` stored as
`(0x01020346, 0x47)` — is checked in the witness. -/
theorem C6_xor_mask_roundtrip (off len key : Nat) (p : List Nat)
    (hoff : off < 2147483648) (hlen : len < 2147483648) (hkey : key < 4294967296) :
    jsXorShiftR0 (off : Int) (key : Int) = Nat.xor off key ∧
    jsXorShiftR0 (len : Int) (key : Int) = Nat.xor len key ∧
    decodeXORIndex
        [(p, [(((Nat.xor off key : Nat) : Int), ((Nat.xor len key : Nat) : Int), none)])]
        (key : Int)
      = Except.ok [(p, ((off : Int), (len : Int)))] := by
  refine ⟨jsXorShiftR0_eq_xor off key (by omega) hkey,
          jsXorShiftR0_eq_xor len key (by omega) hkey, ?_⟩
  simp [decodeXORIndex, exceptMap,
    jsXorInt32_roundtrip off key hoff hkey,
    jsXorInt32_roundtrip len key hlen hkey]

/-- Witness for C6: the claim's concrete family-4 example, masked pair
`(0x01020346, 0x47)` decoding back to `(0x01020304, 0x05)`. -/
theorem C6_xor_mask_roundtrip_witness :
    Nat.xor 0x01020304 0x42 = 0x01020346 ∧ Nat.xor 0x05 0x42 = 0x47 ∧
    (jsXorShiftR0 (0x01020304 : Int) (0x42 : Int) = Nat.xor 0x01020304 0x42 ∧
     jsXorShiftR0 (0x05 : Int) (0x42 : Int) = Nat.xor 0x05 0x42 ∧
     decodeXORIndex
        [([109], [(((Nat.xor 0x01020304 0x42 : Nat) : Int), ((Nat.xor 0x05 0x42 : Nat) : Int), none)])]
        (0x42 : Int)
      = Except.ok [([109], ((0x01020304 : Int), (0x05 : Int)))]) :=
  ⟨by decide, by decide,
   C6_xor_mask_roundtrip 0x01020304 0x05 0x42 [109]
     (by decide) (by decide) (by decide)⟩

/-- Counterexample for C6 as stated: for the 32-bit value `0x80000000`
(below `2 ^ 32`), masking with key `0x42` and unmasking with the reader's
signed XOR yields `-2147483648`, not `0x80000000` — the round-trip is not
the identity on all values below `2 ^ 32`. -/
theorem C6_counterexample :
    jsXorInt32 ((jsXorShiftR0 (2147483648 : Int) (66 : Int) : Nat) : Int) (66 : Int)
      ≠ (2147483648 : Int) := by decide

/-! ## Claim C5: the optional segment prefix -/

/-- A small hand-built family-3 archive whose single index entry carries a
two-byte prefix `[88, 89]` in the 3-tuple form: header (34 bytes), the
two payload bytes `[1, 2]` at offset 34, and the compressed index at
offset 36, XOR key `0x42`. -/
def c5buf : List Nat :=
  strBytes "RPA-3.0" ++ 32 :: hex16 36 ++ 32 :: hex8 66 ++ [10]
    ++ [1, 2]
    ++ toyDeflate (toyDumps
        [([97], [(((Nat.xor 34 66 : Nat) : Int), ((Nat.xor 2 66 : Nat) : Int), some [88, 89])])])

/-- C5 is violated by the code: `decodeXORIndex` destructures only
`[offset, size]` and drops the 3-tuple prefix, and `extractFile` writes
the bare payload slice, never prepending the prefix. On the concrete
archive `c5buf` the extracted bytes are `[1, 2]`, not
`[88, 89] ++ [1, 2]` as the claim requires. -/
theorem C5_prefix_dropped_eval :
    decodeXORIndex
        [([97], [(((Nat.xor 34 66 : Nat) : Int), ((Nat.xor 2 66 : Nat) : Int), some [88, 89])])]
        (66 : Int)
      = Except.ok [([97], ((34 : Int), (2 : Int)))] ∧
    rpx_extractFile toyCodecs c5buf none [97] = Except.ok [1, 2] ∧
    ([1, 2] : List Nat) ≠ [88, 89] ++ [1, 2] := by decide

/-! ## Claim C4: junk-prefix recovery when decompressing the index -/

/-- The compressed index stream used for the C4 evaluation. -/
def c4stream : List Nat := toyDeflate (toyDumps [([97], [((0 : Int), (1 : Int), none)])])

/-- A parsed header whose declared index offset is 0 with no XOR key. -/
def c4hdr : RHeader :=
  { version := strBytes "RPA-3.0", data := strBytes "RPA-3.0"
  , offset := some (JsNum.int 0), key := some (JsNum.int 0) }

/-- C4 is violated by the code: `parseIndex` attempts zlib-wrapped and raw
inflation only at the header-declared offset and throws on failure — there
is no retry loop over later offsets. Concretely: the clean stream parses
fine; the same stream behind a single junk byte fails outright instead of
recovering; and in general a junk byte at the declared offset makes the
parse fail no matter what follows it, even a perfectly valid compressed
index starting one byte later — the retry the spec describes does not
exist. -/
theorem C4_no_junk_recovery :
    (rpx_parseIndex toyCodecs c4stream none c4hdr
      = Except.ok [([97], ((0 : Int), (1 : Int)))] ∧
    rpx_parseIndex toyCodecs (99 :: c4stream) none c4hdr
      = Except.error ErrK.decompressFail) ∧
    ∀ junk : List Nat,
      rpx_parseIndex toyCodecs (99 :: junk) none c4hdr
        = Except.error ErrK.decompressFail := by
  refine ⟨by decide, ?_⟩
  intro junk
  unfold rpx_parseIndex
  rw [if_neg (by decide : ¬ c4hdr.version ∈ rpaSigs1)]
  have hge : jsNumGe c4hdr.offset (99 :: junk).length = false := by
    show decide (((99 :: junk).length : Int) <= 0) = false
    rw [decide_eq_false_iff_not]
    simp only [List.length_cons]
    push_cast
    omega
  rw [hge]
  simp only [Bool.false_eq_true, if_false]
  have harg : jsSubarrayFrom (99 :: junk) (jsNumSubarrayArg c4hdr.offset)
      = 99 :: junk := by
    rw [show jsNumSubarrayArg c4hdr.offset = ((0 : Nat) : Int) from rfl]
    rw [jsSubarrayFrom_drop _ 0 (by simp)]
    rfl
  rw [harg]
  have hic : inflateChain toyCodecs (99 :: junk) = none := rfl
  rw [hic]

/-! ## Claim C2: path traversal on extraction -/

/-- Worker splitting a path on `/` bytes. -/
def splitSlashAux : List Nat → List Nat → List (List Nat)
  | [], [] => []
  | [], acc => [acc.reverse]
  | b :: r, acc =>
    if b = 47 then
      match acc with
      | [] => splitSlashAux r []
      | _ :: _ => acc.reverse :: splitSlashAux r []
    else
      splitSlashAux r (b :: acc)

/-- Segments of a forward-slash path, with empty and `.` segments removed
as `path.normalize` does. -/
def splitSlash (p : List Nat) : List (List Nat) :=
  (splitSlashAux p []).filter (fun s => s ≠ [46])

/-- One step of Node's `path.normalize` segment resolution: `..` pops the
previous segment when one exists (and is not itself `..`). -/
def normStep (st : List (List Nat)) (seg : List Nat) : List (List Nat) :=
  if seg = [46, 46] then
    match st.getLast? with
    | none => [[46, 46]]
    | some lastSeg => if lastSeg = [46, 46] then st ++ [seg] else st.dropLast
  else st ++ [seg]

/-- Model of `path.join(outputDir, fileName)` as the normalized segment
list of the joined relative path. -/
def nodeJoinSegs (dir p : List Nat) : List (List Nat) :=
  (splitSlash dir ++ splitSlash p).foldl normStep []

/-- The on-disk targets that `extractAll` writes: one
`path.join(outputDir, fileName)` per index entry, with no rejection or
sanitisation of the logical path. -/
def extractAllTargets (idx : Index) (outDir : List Nat) : List (List (List Nat)) :=
  idx.map (fun e => nodeJoinSegs outDir e.1)

/-- C2 is violated by the code: for an index entry with logical path
`../evil.txt` and destination directory `out`, the joined write target
normalizes to `evil.txt`, which is not under `out` — the entry is neither
rejected nor sanitised (and a sibling ordinary entry is written inside
`out`, so nothing distinguishes the traversing entry). -/
theorem C2_traversal_eval :
    extractAllTargets
        [((strBytes "../evil.txt"), ((0 : Int), (1 : Int))),
         ((strBytes "ok.txt"), ((1 : Int), (1 : Int)))]
        (strBytes "out")
      = [[strBytes "evil.txt"], [strBytes "out", strBytes "ok.txt"]] ∧
    ¬ [strBytes "out"] <+: [strBytes "evil.txt"] := by decide

/-! ## Claim C8: malformed header parameters -/

theorem takeUntilNl_eq_self (l : List Nat) (hl : ∀ b ∈ l, b ≠ 10) :
    takeUntilNl l = l := by
  induction l with
  | nil => rfl
  | cons b t ih =>
    have hb : b ≠ 10 := hl b (by simp)
    have ht : ∀ x ∈ t, x ≠ 10 := fun x hx => hl x (by simp [hx])
    simp [takeUntilNl, hb, List.takeWhile_cons]
    simpa [takeUntilNl] using ih ht

/-- `readHeader` on a line holding only a recognised non-family-1 tag:
the required offset token is missing and the parse fails with BadHeader,
in every family that requires an offset. -/
theorem readHeader_tag_line (tag rest : List Nat)
    (htagP : tag.take 4 = strBytes "RPA-") (htag1 : tag ∉ rpaSigs1)
    (hreq : tag ∈ rpaSigs2 ∨ (tag ∉ rpaSigs2 ∧ (tag ∈ rpaSigs3 ∨ tag ∈ rpaSigs4)))
    (htagNw : ∀ b ∈ tag, isWs b = false) (htagNe : tag ≠ [])
    (htag10 : ∀ b ∈ tag, b ≠ 10) (htagLen : tag.length <= 23) :
    (rpx_readHeader (tag ++ 10 :: rest)).1 = Except.error ErrK.badHeader := by
  have htake : (tag ++ 10 :: rest).take 50
      = tag ++ (10 :: rest).take (50 - tag.length) := by
    rw [List.take_append_eq_append_take]
    rw [List.take_of_length_le (by omega)]
  have hline : takeUntilNl (tag ++ (10 :: rest).take (50 - tag.length)) = tag := by
    rw [show ((10 :: rest).take (50 - tag.length))
        = 10 :: rest.take (50 - tag.length - 1) by
      rw [List.take_cons (by omega)]]
    exact takeUntilNl_append tag _ htag10
  have htoks : splitWs tag = [tag] := by
    unfold splitWs
    rw [splitWsAux_last tag [] htagNw (Or.inr htagNe)]
    simp
  unfold rpx_readHeader
  rcases hreq with h2 | ⟨h2n, h34⟩
  · simp only [htake, hline, htoks, List.head?_cons, htagP, if_true,
      if_neg htag1, if_pos h2]
    rfl
  · simp only [htake, hline, htoks, List.head?_cons, htagP, if_true,
      if_neg htag1, if_neg h2n, if_pos h34]
    rfl

/-- `readHeader` on a family-3/4 line with an offset token but no key
token: the required key token is missing and the parse fails. -/
theorem readHeader_missing_key (tag t rest : List Nat)
    (htagP : tag.take 4 = strBytes "RPA-") (htag1 : tag ∉ rpaSigs1)
    (h2n : tag ∉ rpaSigs2) (h34 : tag ∈ rpaSigs3 ∨ tag ∈ rpaSigs4)
    (htagNw : ∀ b ∈ tag, isWs b = false) (htagNe : tag ≠ [])
    (htag10 : ∀ b ∈ tag, b ≠ 10) (htagLen : tag.length <= 23)
    (hnw : ∀ b ∈ t, isWs b = false) (hne : t ≠ []) (hlen : t.length <= 20) :
    (rpx_readHeader ((tag ++ 32 :: t) ++ 10 :: rest)).1
      = Except.error ErrK.badHeader := by
  have hn10 : ∀ b ∈ t, b ≠ 10 := by
    intro b hb hc
    have := hnw b hb
    rw [hc] at this
    simp [isWs] at this
  set lineBody := tag ++ 32 :: t with hlb
  have hlbLen : lineBody.length = tag.length + 1 + t.length := by
    rw [hlb]
    simp only [List.length_append, List.length_cons]
    omega
  have htake : (lineBody ++ 10 :: rest).take 50
      = lineBody ++ (10 :: rest).take (50 - lineBody.length) := by
    rw [List.take_append_eq_append_take]
    rw [List.take_of_length_le (by omega)]
  have hnn : ∀ b ∈ lineBody, b ≠ 10 := by
    intro b hb
    rw [hlb] at hb
    rcases List.mem_append.mp hb with h | h
    · exact htag10 b h
    · rcases List.mem_cons.mp h with rfl | h
      · omega
      · exact hn10 b h
  have hline : takeUntilNl (lineBody ++ (10 :: rest).take (50 - lineBody.length))
      = lineBody := by
    rw [show ((10 :: rest).take (50 - lineBody.length))
        = 10 :: rest.take (50 - lineBody.length - 1) by
      rw [List.take_cons (by omega)]]
    exact takeUntilNl_append lineBody _ hnn
  have htoks : splitWs lineBody = [tag, t] :=
    splitWs_two_tokens tag t htagNw hnw htagNe hne
  unfold rpx_readHeader
  simp only [htake, hline, htoks, List.head?_cons, htagP, if_true,
    if_neg htag1, if_neg h2n, if_pos h34]
  rfl

/-- `readHeader` on a family-2 line with an arbitrary non-whitespace
parameter token: the parse never fails, and the offset field takes the
`parseInt` value of the token (`NaN` when it has no leading hexadecimal
digit). -/
theorem readHeader_line2_any (tag t rest : List Nat)
    (htagP : tag.take 4 = strBytes "RPA-") (htag1 : tag ∉ rpaSigs1)
    (h2 : tag ∈ rpaSigs2)
    (htagNw : ∀ b ∈ tag, isWs b = false) (htagNe : tag ≠ [])
    (htag10 : ∀ b ∈ tag, b ≠ 10) (htagLen : tag.length <= 23)
    (hnw : ∀ b ∈ t, isWs b = false) (hne : t ≠ []) (hlen : t.length <= 20) :
    (rpx_readHeader ((tag ++ 32 :: t) ++ 10 :: rest)).1
      = Except.ok { version := tag, data := tag ++ 32 :: t
                  , offset := some (jsNumOfParse (jsParseIntHex t))
                  , key := some (JsNum.int 0) } := by
  have hn10 : ∀ b ∈ t, b ≠ 10 := by
    intro b hb hc
    have := hnw b hb
    rw [hc] at this
    simp [isWs] at this
  set lineBody := tag ++ 32 :: t with hlb
  have hlbLen : lineBody.length = tag.length + 1 + t.length := by
    rw [hlb]
    simp only [List.length_append, List.length_cons]
    omega
  have htake : (lineBody ++ 10 :: rest).take 50
      = lineBody ++ (10 :: rest).take (50 - lineBody.length) := by
    rw [List.take_append_eq_append_take]
    rw [List.take_of_length_le (by omega)]
  have hnn : ∀ b ∈ lineBody, b ≠ 10 := by
    intro b hb
    rw [hlb] at hb
    rcases List.mem_append.mp hb with h | h
    · exact htag10 b h
    · rcases List.mem_cons.mp h with rfl | h
      · omega
      · exact hn10 b h
  have hline : takeUntilNl (lineBody ++ (10 :: rest).take (50 - lineBody.length))
      = lineBody := by
    rw [show ((10 :: rest).take (50 - lineBody.length))
        = 10 :: rest.take (50 - lineBody.length - 1) by
      rw [List.take_cons (by omega)]]
    exact takeUntilNl_append lineBody _ hnn
  have htoks : splitWs lineBody = [tag, t] :=
    splitWs_two_tokens tag t htagNw hnw htagNe hne
  unfold rpx_readHeader
  simp only [htake, hline, htoks, List.head?_cons, htagP, if_true,
    if_neg htag1, if_pos h2]
  rfl

/-- `readHeader` on a family-3/4 line with two arbitrary non-whitespace
parameter tokens: the parse never fails, and both the offset and the key
fields take `parseInt` values of their tokens. -/
theorem readHeader_lineXor_any (tag t1 t2 rest : List Nat)
    (htagP : tag.take 4 = strBytes "RPA-") (htag1 : tag ∉ rpaSigs1)
    (h2n : tag ∉ rpaSigs2) (h34 : tag ∈ rpaSigs3 ∨ tag ∈ rpaSigs4)
    (htagNw : ∀ b ∈ tag, isWs b = false) (htagNe : tag ≠ [])
    (htag10 : ∀ b ∈ tag, b ≠ 10) (htagLen : tag.length <= 7)
    (hnw1 : ∀ b ∈ t1, isWs b = false) (hne1 : t1 ≠ []) (hlen1 : t1.length <= 20)
    (hnw2 : ∀ b ∈ t2, isWs b = false) (hne2 : t2 ≠ []) (hlen2 : t2.length <= 20) :
    (rpx_readHeader ((tag ++ 32 :: (t1 ++ 32 :: t2)) ++ 10 :: rest)).1
      = Except.ok { version := tag, data := tag ++ 32 :: (t1 ++ 32 :: t2)
                  , offset := some (jsNumOfParse (jsParseIntHex t1))
                  , key := some (jsNumOfParse (jsParseIntHex t2)) } := by
  have hn10a : ∀ b ∈ t1, b ≠ 10 := by
    intro b hb hc
    have := hnw1 b hb
    rw [hc] at this
    simp [isWs] at this
  have hn10b : ∀ b ∈ t2, b ≠ 10 := by
    intro b hb hc
    have := hnw2 b hb
    rw [hc] at this
    simp [isWs] at this
  set lineBody := tag ++ 32 :: (t1 ++ 32 :: t2) with hlb
  have hlbLen : lineBody.length
      = tag.length + 1 + t1.length + 1 + t2.length := by
    rw [hlb]
    simp only [List.length_append, List.length_cons]
    omega
  have htake : (lineBody ++ 10 :: rest).take 50
      = lineBody ++ (10 :: rest).take (50 - lineBody.length) := by
    rw [List.take_append_eq_append_take]
    rw [List.take_of_length_le (by omega)]
  have hnn : ∀ b ∈ lineBody, b ≠ 10 := by
    intro b hb
    rw [hlb] at hb
    rcases List.mem_append.mp hb with h | h
    · exact htag10 b h
    · rcases List.mem_cons.mp h with rfl | h
      · omega
      · rcases List.mem_append.mp h with h | h
        · exact hn10a b h
        · rcases List.mem_cons.mp h with rfl | h
          · omega
          · exact hn10b b h
  have hline : takeUntilNl (lineBody ++ (10 :: rest).take (50 - lineBody.length))
      = lineBody := by
    rw [show ((10 :: rest).take (50 - lineBody.length))
        = 10 :: rest.take (50 - lineBody.length - 1) by
      rw [List.take_cons (by omega)]]
    exact takeUntilNl_append lineBody _ hnn
  have htoks : splitWs lineBody = [tag, t1, t2] :=
    splitWs_three_tokens tag t1 t2 htagNw hnw1 hnw2 htagNe hne1 hne2
  unfold rpx_readHeader
  simp only [htake, hline, htoks, List.head?_cons, htagP, if_true,
    if_neg htag1, if_neg h2n, if_pos h34]
  rfl

/-- C8 (amended), for every recognised signature that requires parameters
(`RPA-2`/`RPA-2.0`/`RPA-3`/`RPA-3.0`/`RPA-3.2`/`RPA-4`/`RPA-4.0`) and
arbitrary non-whitespace parameter tokens that fit the 50-byte header
read. A missing required offset token does fail with *BadHeader*, as does
a missing key token in the three-token families — but a non-hexadecimal
character in an offset or key parameter does not: `parseInt`
longest-prefix semantics apply to whatever token is present, and a token
with no leading hexadecimal digit silently yields a `NaN` offset or key
in a successfully returned header. -/
theorem C8_header_amended (tag t1 t2 rest : List Nat)
    (hin : tag ∈ rpaSigs2 ∨ tag ∈ rpaSigs3 ∨ tag ∈ rpaSigs4)
    (hne1 : t1 ≠ []) (hnw1 : ∀ b ∈ t1, isWs b = false)
    (hlen1 : t1.length <= 20)
    (hne2 : t2 ≠ []) (hnw2 : ∀ b ∈ t2, isWs b = false)
    (hlen2 : t2.length <= 20) :
    (rpx_readHeader (tag ++ 10 :: rest)).1 = Except.error ErrK.badHeader ∧
    ((tag ∈ rpaSigs3 ∨ tag ∈ rpaSigs4) →
      (rpx_readHeader ((tag ++ 32 :: t1) ++ 10 :: rest)).1
        = Except.error ErrK.badHeader) ∧
    (tag ∈ rpaSigs2 →
      (rpx_readHeader ((tag ++ 32 :: t1) ++ 10 :: rest)).1
        = Except.ok { version := tag, data := tag ++ 32 :: t1
                    , offset := some (jsNumOfParse (jsParseIntHex t1))
                    , key := some (JsNum.int 0) }) ∧
    ((tag ∈ rpaSigs3 ∨ tag ∈ rpaSigs4) →
      (rpx_readHeader ((tag ++ 32 :: (t1 ++ 32 :: t2)) ++ 10 :: rest)).1
        = Except.ok { version := tag, data := tag ++ 32 :: (t1 ++ 32 :: t2)
                    , offset := some (jsNumOfParse (jsParseIntHex t1))
                    , key := some (jsNumOfParse (jsParseIntHex t2)) }) := by
  have hcases : tag = strBytes "RPA-2" ∨ tag = strBytes "RPA-2.0"
      ∨ tag = strBytes "RPA-3" ∨ tag = strBytes "RPA-3.0"
      ∨ tag = strBytes "RPA-3.2"
      ∨ tag = strBytes "RPA-4" ∨ tag = strBytes "RPA-4.0" := by
    rcases hin with h | h | h
    · simp [rpaSigs2] at h
      tauto
    · simp [rpaSigs3] at h
      tauto
    · simp [rpaSigs4] at h
      tauto
  rcases hcases with rfl | rfl | rfl | rfl | rfl | rfl | rfl
  · exact ⟨readHeader_tag_line _ rest (by decide) (by decide)
        (Or.inl (by decide)) (by decide) (by decide) (by decide) (by decide),
      fun h34 => absurd h34 (by decide),
      fun _ => readHeader_line2_any _ t1 rest (by decide) (by decide)
        (by decide) (by decide) (by decide) (by decide) (by decide)
        hnw1 hne1 hlen1,
      fun h34 => absurd h34 (by decide)⟩
  · exact ⟨readHeader_tag_line _ rest (by decide) (by decide)
        (Or.inl (by decide)) (by decide) (by decide) (by decide) (by decide),
      fun h34 => absurd h34 (by decide),
      fun _ => readHeader_line2_any _ t1 rest (by decide) (by decide)
        (by decide) (by decide) (by decide) (by decide) (by decide)
        hnw1 hne1 hlen1,
      fun h34 => absurd h34 (by decide)⟩
  · exact ⟨readHeader_tag_line _ rest (by decide) (by decide)
        (Or.inr ⟨by decide, by decide⟩) (by decide) (by decide) (by decide)
        (by decide),
      fun _ => readHeader_missing_key _ t1 rest (by decide) (by decide)
        (by decide) (by decide) (by decide) (by decide) (by decide) (by decide)
        hnw1 hne1 hlen1,
      fun h2 => absurd h2 (by decide),
      fun _ => readHeader_lineXor_any _ t1 t2 rest (by decide) (by decide)
        (by decide) (by decide) (by decide) (by decide) (by decide) (by decide)
        hnw1 hne1 hlen1 hnw2 hne2 hlen2⟩
  · exact ⟨readHeader_tag_line _ rest (by decide) (by decide)
        (Or.inr ⟨by decide, by decide⟩) (by decide) (by decide) (by decide)
        (by decide),
      fun _ => readHeader_missing_key _ t1 rest (by decide) (by decide)
        (by decide) (by decide) (by decide) (by decide) (by decide) (by decide)
        hnw1 hne1 hlen1,
      fun h2 => absurd h2 (by decide),
      fun _ => readHeader_lineXor_any _ t1 t2 rest (by decide) (by decide)
        (by decide) (by decide) (by decide) (by decide) (by decide) (by decide)
        hnw1 hne1 hlen1 hnw2 hne2 hlen2⟩
  · exact ⟨readHeader_tag_line _ rest (by decide) (by decide)
        (Or.inr ⟨by decide, by decide⟩) (by decide) (by decide) (by decide)
        (by decide),
      fun _ => readHeader_missing_key _ t1 rest (by decide) (by decide)
        (by decide) (by decide) (by decide) (by decide) (by decide) (by decide)
        hnw1 hne1 hlen1,
      fun h2 => absurd h2 (by decide),
      fun _ => readHeader_lineXor_any _ t1 t2 rest (by decide) (by decide)
        (by decide) (by decide) (by decide) (by decide) (by decide) (by decide)
        hnw1 hne1 hlen1 hnw2 hne2 hlen2⟩
  · exact ⟨readHeader_tag_line _ rest (by decide) (by decide)
        (Or.inr ⟨by decide, by decide⟩) (by decide) (by decide) (by decide)
        (by decide),
      fun _ => readHeader_missing_key _ t1 rest (by decide) (by decide)
        (by decide) (by decide) (by decide) (by decide) (by decide) (by decide)
        hnw1 hne1 hlen1,
      fun h2 => absurd h2 (by decide),
      fun _ => readHeader_lineXor_any _ t1 t2 rest (by decide) (by decide)
        (by decide) (by decide) (by decide) (by decide) (by decide) (by decide)
        hnw1 hne1 hlen1 hnw2 hne2 hlen2⟩
  · exact ⟨readHeader_tag_line _ rest (by decide) (by decide)
        (Or.inr ⟨by decide, by decide⟩) (by decide) (by decide) (by decide)
        (by decide),
      fun _ => readHeader_missing_key _ t1 rest (by decide) (by decide)
        (by decide) (by decide) (by decide) (by decide) (by decide) (by decide)
        hnw1 hne1 hlen1,
      fun h2 => absurd h2 (by decide),
      fun _ => readHeader_lineXor_any _ t1 t2 rest (by decide) (by decide)
        (by decide) (by decide) (by decide) (by decide) (by decide) (by decide)
        hnw1 hne1 hlen1 hnw2 hne2 hlen2⟩

/-- Witness for C8 at concrete inputs: the bare line `RPA-3.0` and the
line `RPA-3.0 ZZZZ` (missing key) both fail with BadHeader, while the
all-non-hex parameters of `RPA-3.0 ZZZZ GG` and `RPA-2.0 ZZZZ` are
accepted and produce `NaN` fields. -/
theorem C8_header_amended_witness :
    (rpx_readHeader (strBytes "RPA-3.0" ++ 10 :: [])).1
      = Except.error ErrK.badHeader ∧
    (rpx_readHeader ((strBytes "RPA-3.0" ++ 32 :: strBytes "ZZZZ")
        ++ 10 :: [])).1
      = Except.error ErrK.badHeader ∧
    (rpx_readHeader ((strBytes "RPA-3.0" ++ 32 ::
        (strBytes "ZZZZ" ++ 32 :: strBytes "GG")) ++ 10 :: [])).1
      = Except.ok { version := strBytes "RPA-3.0"
                  , data := strBytes "RPA-3.0" ++ 32 ::
                      (strBytes "ZZZZ" ++ 32 :: strBytes "GG")
                  , offset := some JsNum.nan
                  , key := some JsNum.nan } ∧
    (rpx_readHeader ((strBytes "RPA-2.0" ++ 32 :: strBytes "ZZZZ")
        ++ 10 :: [])).1
      = Except.ok { version := strBytes "RPA-2.0"
                  , data := strBytes "RPA-2.0" ++ 32 :: strBytes "ZZZZ"
                  , offset := some JsNum.nan
                  , key := some (JsNum.int 0) } := by
  have h3 := C8_header_amended (strBytes "RPA-3.0") (strBytes "ZZZZ")
    (strBytes "GG") [] (Or.inr (Or.inl (by decide))) (by decide) (by decide)
    (by decide) (by decide) (by decide) (by decide)
  have h2 := C8_header_amended (strBytes "RPA-2.0") (strBytes "ZZZZ")
    (strBytes "GG") [] (Or.inl (by decide)) (by decide) (by decide)
    (by decide) (by decide) (by decide) (by decide)
  refine ⟨h3.1, h3.2.1 (Or.inl (by decide)), ?_, ?_⟩
  · rw [h3.2.2.2 (Or.inl (by decide))]
    rfl
  · rw [h2.2.2.1 (by decide)]
    rfl

/-- Counterexample for C8 as stated: on the header line `RPA-2.0 ZZZZ`
(non-hex offset parameter) `readHeader` does not fail — it returns a
header whose `offset` field is the non-numeric `NaN`. -/
theorem C8_counterexample :
    (rpx_readHeader (strBytes "RPA-2.0 ZZZZ")).1 =
      Except.ok { version := strBytes "RPA-2.0"
                , data := strBytes "RPA-2.0 ZZZZ"
                , offset := some JsNum.nan
                , key := some (JsNum.int 0) } := by decide

/-! ## Claim C10: unsupported RPA- signatures -/

/-- C10 (amended). A first token that begins with `RPA-` but is not a
recognised signature makes `readHeader` throw the Unsupported-version
error rather than falling back to family-1 — but the reader's header
cache does not stay unset: `this.header` has already been assigned the
partial `{ version, data }` object, so a subsequent `readHeader` call
returns that partial header (with no `offset` or `key`) instead of
throwing again. -/
theorem C10_unsupported_amended (buf sig : List Nat)
    (hhead : (splitWs (takeUntilNl (buf.take 50))).head? = some sig)
    (hrpa : sig.take 4 = strBytes "RPA-")
    (h1 : sig ∉ rpaSigs1) (h2 : sig ∉ rpaSigs2)
    (h3 : sig ∉ rpaSigs3) (h4 : sig ∉ rpaSigs4) :
    (rpx_readHeader buf).1 = Except.error ErrK.unsupported ∧
    (rpx_readHeader buf).2 =
      some { version := sig, data := takeUntilNl (buf.take 50)
           , offset := none, key := none } ∧
    (rpx_readHeaderCached (rpx_readHeader buf).2 buf).1 =
      Except.ok { version := sig, data := takeUntilNl (buf.take 50)
                , offset := none, key := none } := by
  have hor : ¬ (sig ∈ rpaSigs3 ∨ sig ∈ rpaSigs4) := by
    intro h
    rcases h with h | h
    · exact h3 h
    · exact h4 h
  unfold rpx_readHeader
  simp only [hhead, hrpa, if_true, if_neg h1, if_neg h2, if_neg hor]
  simp [rpx_readHeaderCached]

/-- Witness for C10 at the concrete unrecognised signature `RPA-9.9`. -/
theorem C10_unsupported_amended_witness :
    (rpx_readHeader (strBytes "RPA-9.9 X")).1 = Except.error ErrK.unsupported ∧
    (rpx_readHeader (strBytes "RPA-9.9 X")).2 =
      some { version := strBytes "RPA-9.9"
           , data := takeUntilNl ((strBytes "RPA-9.9 X").take 50)
           , offset := none, key := none } ∧
    (rpx_readHeaderCached (rpx_readHeader (strBytes "RPA-9.9 X")).2
        (strBytes "RPA-9.9 X")).1 =
      Except.ok { version := strBytes "RPA-9.9"
                , data := takeUntilNl ((strBytes "RPA-9.9 X").take 50)
                , offset := none, key := none } :=
  C10_unsupported_amended (strBytes "RPA-9.9 X") (strBytes "RPA-9.9")
    (by decide) (by decide) (by decide) (by decide) (by decide) (by decide)

/-- Counterexample for C10 as stated: after the Unsupported throw on
`RPA-9.9 X`, the cached header is *not* unset. -/
theorem C10_counterexample :
    (rpx_readHeader (strBytes "RPA-9.9 X")).1 = Except.error ErrK.unsupported ∧
    (rpx_readHeader (strBytes "RPA-9.9 X")).2 ≠ none := by decide

/-! ## Claim C9: XOR key parsing -/

theorem dropWhile_isWs_eq_self (l : List Nat) (hl : ∀ b ∈ l, isWs b = false) :
    l.dropWhile isWs = l := by
  cases l with
  | nil => rfl
  | cons b t => simp [List.dropWhile_cons, hl b (by simp)]

theorem trimBytes_eq_self (l : List Nat) (hl : ∀ b ∈ l, isWs b = false) :
    trimBytes l = l := by
  unfold trimBytes
  rw [dropWhile_isWs_eq_self l hl,
    dropWhile_isWs_eq_self l.reverse (by intro b hb; exact hl b (List.mem_reverse.mp hb)),
    List.reverse_reverse]

theorem startsWith0x_hex (l : List Nat) (hl : ∀ b ∈ l, isHexByte b) :
    startsWith0x (l.map lowerByte) = false := by
  match l with
  | [] => rfl
  | [a] => rfl
  | a :: b :: t =>
    have hb := hl b (by simp)
    have : lowerByte b ≠ 120 := by
      unfold lowerByte
      rcases isHexByte_range b hb with ⟨h1, h2⟩ | ⟨h1, h2⟩ <;> split <;> omega
    simp [startsWith0x, this]

theorem jsToUint32_natCast_mod (x : Nat) :
    jsToUint32 (x : Int) = x % 4294967296 := by
  unfold jsToUint32
  omega

/-- Parsing a `0x`-marked hex token. -/
theorem jsParseIntHex_0x_hex (ds : List Nat) (hne : ds ≠ [])
    (hhex : ∀ b ∈ ds, isHexByte b) :
    jsParseIntHex (48 :: 120 :: ds) = some ((hexVal ds : Nat) : Int) := by
  cases ds with
  | nil => exact absurd rfl hne
  | cons b t =>
    have hb := hhex b (by simp)
    have hred : jsParseIntHex (48 :: 120 :: b :: t)
        = (jsParseHexMag (b :: t)).map (fun v => (v : Int)) := rfl
    have hmag : jsParseHexMag (b :: t) = some (hexScan (b :: t) 0) := by
      show (if (hexDigitVal b).isSome = true then some (hexScan (b :: t) 0) else none)
          = some (hexScan (b :: t) 0)
      rw [if_pos (isHexByte_some b hb)]
    rw [hred, hmag]
    rfl

/-- The string arm of `parseXorKey` on a plain hex token: implicitly
`0x`-prefixed, parsed as hexadecimal, reduced with `>>> 0`. -/
theorem parseXorKey_str_hex (ds : List Nat) (fb : Nat) (hne : ds ≠ [])
    (hhex : ∀ b ∈ ds, isHexByte b) :
    parseXorKey (KeyArg.str ds) fb true = Except.ok (hexVal ds % 4294967296) := by
  have hnw : ∀ b ∈ ds, isWs b = false := fun b hb => isHexByte_not_ws b (hhex b hb)
  have htrim : trimBytes ds = ds := trimBytes_eq_self ds hnw
  have hsw : startsWith0x (ds.map lowerByte) = false := startsWith0x_hex ds hhex
  unfold parseXorKey
  simp only [not_true, if_false, hne, htrim, hsw, Bool.false_eq_true, if_neg]
  rw [jsParseIntHex_0x_hex ds hne hhex]
  simp [jsToUint32_natCast_mod]

/-- The string arm of `parseXorKey` on an explicitly `0x`-prefixed token. -/
theorem parseXorKey_str_0x_hex (ds : List Nat) (fb : Nat) (hne : ds ≠ [])
    (hhex : ∀ b ∈ ds, isHexByte b) :
    parseXorKey (KeyArg.str (48 :: 120 :: ds)) fb true
      = Except.ok (hexVal ds % 4294967296) := by
  have hnw : ∀ b ∈ (48 :: 120 :: ds), isWs b = false := by
    intro b hb
    rcases List.mem_cons.mp hb with rfl | hb
    · rfl
    rcases List.mem_cons.mp hb with rfl | hb
    · rfl
    · exact isHexByte_not_ws b (hhex b hb)
  have htrim : trimBytes (48 :: 120 :: ds) = 48 :: 120 :: ds :=
    trimBytes_eq_self _ hnw
  have hsw : startsWith0x ((48 :: 120 :: ds).map lowerByte) = true := by
    simp [startsWith0x, lowerByte]
  unfold parseXorKey
  simp only [not_true, if_false, htrim, hsw, if_true]
  rw [jsParseIntHex_0x_hex ds hne hhex]
  simp [jsToUint32_natCast_mod]

/-- C9 (confirmed). A string key override of hex digits is parsed as
hexadecimal whether or not it carries a `0x` prefix (so the string `42`
yields `0x42 = 66`, not decimal 42, as the witness shows), and every key
— string or numeric — is reduced modulo `2 ^ 32` (`>>> 0`) before use. -/
theorem C9_parse_xor_key (ds : List Nat) (fb : Nat) (n : Int)
    (hne : ds ≠ []) (hhex : ∀ b ∈ ds, isHexByte b) :
    parseXorKey (KeyArg.str ds) fb true = Except.ok (hexVal ds % 4294967296) ∧
    parseXorKey (KeyArg.str (48 :: 120 :: ds)) fb true
      = Except.ok (hexVal ds % 4294967296) ∧
    parseXorKey (KeyArg.num n) fb true = Except.ok (jsToUint32 n) ∧
    jsToUint32 n < 4294967296 :=
  ⟨parseXorKey_str_hex ds fb hne hhex,
   parseXorKey_str_0x_hex ds fb hne hhex,
   by simp [parseXorKey],
   by unfold jsToUint32; omega⟩

/-- Witness for C9: the string `42` (bytes `[52, 50]`) parses to `0x42 =
66`, not decimal 42, with or without `0x`; the numeric key `2 ^ 32 + 2` is
reduced to `2`. -/
theorem C9_parse_xor_key_witness :
    parseXorKey (KeyArg.str [52, 50]) 1111638594 true = Except.ok 66 ∧
    parseXorKey (KeyArg.str (48 :: 120 :: [52, 50])) 1111638594 true
      = Except.ok 66 ∧
    parseXorKey (KeyArg.num 4294967298) 1111638594 true = Except.ok 2 ∧
    (66 : Nat) ≠ 42 := by
  have hx : ∀ b ∈ ([52, 50] : List Nat), isHexByte b := by
    intro b hb
    rcases List.mem_cons.mp hb with rfl | hb
    · exact ⟨4, by norm_num, rfl⟩
    rcases List.mem_cons.mp hb with rfl | hb
    · exact ⟨2, by norm_num, rfl⟩
    · simp at hb
  obtain ⟨h1, h2, h3, _⟩ :=
    C9_parse_xor_key [52, 50] 1111638594 4294967298 (by decide) hx
  refine ⟨?_, ?_, ?_, by decide⟩
  · rw [h1]; decide
  · rw [h2]; decide
  · rw [h3]; decide

/-! ## Claim C7: the 32-bit guard of XOR families -/

/-- If any record's real offset or length exceeds 32 bits, the XOR encode
loop throws the oversize error (all its error sites are this error). -/
theorem encodeIndex_big (key : Nat) (recs : List PlacedRec)
    (hbig : ∃ r ∈ recs, r.dataOffset > 0xFFFFFFFF ∨ r.size > 0xFFFFFFFF) :
    encodeIndex true key recs = Except.error ErrK.tooLarge32 := by
  unfold encodeIndex
  rw [if_pos rfl]
  induction recs with
  | nil => simp at hbig
  | cons r t ih =>
    unfold exceptMap
    by_cases hr : r.dataOffset > 0xFFFFFFFF ∨ r.size > 0xFFFFFFFF
    · simp [hr]
    · have hbig' : ∃ x ∈ t, x.dataOffset > 0xFFFFFFFF ∨ x.size > 0xFFFFFFFF := by
        rcases hbig with ⟨x, hx, hbx⟩
        rcases List.mem_cons.mp hx with rfl | hx
        · exact absurd hbx hr
        · exact ⟨x, hx, hbx⟩
      simp [hr, ih hbig']

/-- C7 (confirmed). When `createArchive` targets an XOR family and some
member's real offset or length exceeds 32 bits, the writer fails with the
LayoutMismatch-kind oversize error, and the trace contains no operation
that mutates the output file's bytes — only the `mkdir` of the output
directory precedes the throw, so nothing is written to disk. -/
theorem C7_layout_guard (C : Codecs) (files : List InFile) (opts : CreateOpts)
    (vi : VersionInfo) (key : Nat)
    (hvi : normalizeRpaVersion opts.version = Except.ok vi)
    (hxor : vi.usesXor = true)
    (hne : ¬ files.length = 0)
    (hforce : ¬ (opts.outputExists ∧ ¬ opts.force))
    (hkey : parseXorKey opts.key vi.defaultKey vi.usesXor = Except.ok key)
    (hproto : ¬ chooseProtocol vi opts.pickleProto < 0)
    (hbig : ∃ r ∈ (layoutRecs (chooseMarker vi opts.marker) (writerStart vi) files).1,
        r.dataOffset > 0xFFFFFFFF ∨ r.size > 0xFFFFFFFF) :
    (createArchive C files opts).2 = Except.error ErrK.tooLarge32 ∧
    ∀ op ∈ (createArchive C files opts).1, mutatesOut op = false := by
  have henc : encodeIndex vi.usesXor key
      (layoutRecs (chooseMarker vi opts.marker) (writerStart vi) files).1
      = Except.error ErrK.tooLarge32 := by
    rw [hxor]
    exact encodeIndex_big key _ hbig
  unfold createArchive
  rw [hvi]
  simp only [if_neg hne, if_neg hforce, hkey, if_neg hproto, henc]
  exact ⟨trivial, by decide⟩

/-- Witness for C7: a single 4 GiB file (`stat` size `2 ^ 32`) packed as
family 4.0 makes the writer fail before any output-mutating operation. -/
theorem C7_layout_guard_witness :
    (createArchive toyCodecs [{ rel := [97], size := 4294967296, content := [] }]
        { version := "4.0", key := KeyArg.undef, pickleProto := none
        , marker := none, force := false
        , outputExists := false, sidecarExists := false }).2
      = Except.error ErrK.tooLarge32 ∧
    ∀ op ∈ (createArchive toyCodecs [{ rel := [97], size := 4294967296, content := [] }]
        { version := "4.0", key := KeyArg.undef, pickleProto := none
        , marker := none, force := false
        , outputExists := false, sidecarExists := false }).1,
      mutatesOut op = false :=
  C7_layout_guard toyCodecs
    [{ rel := [97], size := 4294967296, content := [] }]
    { version := "4.0", key := KeyArg.undef, pickleProto := none
    , marker := none, force := false
    , outputExists := false, sidecarExists := false }
    viFamily4 0x42
    (by decide) (by decide) (by decide) (by decide) (by decide) (by decide)
    ⟨{ rel := [97], size := 4294967296, content := []
     , dataOffset := 51, markerOffset := some 34 }, by decide, by decide⟩

/-! ## Claim C3: atomicity of the writer -/

/-- Rename detector over trace operations. -/
def isRenameOp : FsOp → Bool
  | FsOp.rename _ _ => true
  | _ => false

/-- Counterexample for C3 as stated, in two parts. First, on a successful
run over an existing destination (`force`), the trace opens the
destination itself with truncating `'w'` mode and contains no rename at
all — `createArchive` does not write to a temporary file, and there is no
rename commit point. Second, an error path that destroys the destination
exists: packing as RPA-1.0 when the sidecar `.rpi` already exists (without
`force`) fails with `sidecarAlreadyThere` only after the data file has
been fully written — the trace of the erroring run already holds the
truncating open and the payload write on the destination, so an existing
destination is NOT left byte-for-byte unchanged by every error. -/
theorem C3_counterexample :
    (FsOp.openW FTgt.out ∈
      (createArchive toyCodecs [{ rel := [97], size := 1, content := [55] }]
        { version := "3.0", key := KeyArg.undef, pickleProto := none
        , marker := none, force := true
        , outputExists := true, sidecarExists := false }).1 ∧
    ∀ op ∈ (createArchive toyCodecs [{ rel := [97], size := 1, content := [55] }]
        { version := "3.0", key := KeyArg.undef, pickleProto := none
        , marker := none, force := true
        , outputExists := true, sidecarExists := false }).1,
      isRenameOp op = false) ∧
    ((createArchive toyCodecs [{ rel := [97], size := 1, content := [55] }]
        { version := "1.0", key := KeyArg.undef, pickleProto := none
        , marker := none, force := false
        , outputExists := false, sidecarExists := true }).2
      = Except.error ErrK.sidecarAlreadyThere ∧
    FsOp.openW FTgt.out ∈
      (createArchive toyCodecs [{ rel := [97], size := 1, content := [55] }]
        { version := "1.0", key := KeyArg.undef, pickleProto := none
        , marker := none, force := false
        , outputExists := false, sidecarExists := true }).1 ∧
    FsOp.writeAt FTgt.out 0 [55] ∈
      (createArchive toyCodecs [{ rel := [97], size := 1, content := [55] }]
        { version := "1.0", key := KeyArg.undef, pickleProto := none
        , marker := none, force := false
        , outputExists := false, sidecarExists := true }).1 ∧
    ∀ op ∈ (createArchive toyCodecs [{ rel := [97], size := 1, content := [55] }]
        { version := "1.0", key := KeyArg.undef, pickleProto := none
        , marker := none, force := false
        , outputExists := false, sidecarExists := true }).1,
      isRenameOp op = false) := by decide

/-- C3 (amended). `createArchive` writes directly to the destination path
(a truncating open, then positioned writes, then an in-place header
patch), with no temporary file, no fsync and no rename. What survives of
the claim: every error raised before the output file is opened — an
unsupported version option, empty input, an existing destination without
`force`, an invalid XOR key or pickle protocol, an oversized XOR offset,
or a pickling failure — produces a trace with no operation that mutates
the destination's bytes, so an existing destination is left unchanged by
those failures. The two late error sites (`sidecarAlreadyThere` for
family-1 and the header-patch width check) fire only after the
destination has already been written. -/
theorem C3_preopen_errors (C : Codecs) (files : List InFile)
    (opts : CreateOpts) (e : ErrK)
    (herr : (createArchive C files opts).2 = Except.error e)
    (h1 : e ≠ ErrK.sidecarAlreadyThere) (h2 : e ≠ ErrK.headerPatchMismatch) :
    ∀ op ∈ (createArchive C files opts).1, mutatesOut op = false := by
  unfold createArchive at herr ⊢
  cases hn : normalizeRpaVersion opts.version with
  | error err => simp only [hn] at herr ⊢; simp
  | ok vi =>
    simp only [hn] at herr ⊢
    by_cases h0 : files.length = 0
    · simp only [if_pos h0] at herr ⊢; simp
    · simp only [if_neg h0] at herr ⊢
      by_cases hfo : opts.outputExists = true ∧ ¬ opts.force = true
      · simp only [if_pos hfo] at herr ⊢; simp
      · simp only [if_neg hfo] at herr ⊢
        cases hk : parseXorKey opts.key vi.defaultKey vi.usesXor with
        | error err => simp only [hk] at herr ⊢; decide
        | ok key =>
          simp only [hk] at herr ⊢
          by_cases hp : chooseProtocol vi opts.pickleProto < 0
          · simp only [if_pos hp] at herr ⊢; decide
          · simp only [if_neg hp] at herr ⊢
            cases he : encodeIndex vi.usesXor key
                (layoutRecs (chooseMarker vi opts.marker) (writerStart vi) files).1 with
            | error err => simp only [he] at herr ⊢; decide
            | ok enc =>
              simp only [he] at herr ⊢
              by_cases hsep : vi.separateIndex = true
              · simp only [if_pos hsep] at herr ⊢
                by_cases hse : opts.sidecarExists = true ∧ ¬ opts.force = true
                · simp only [if_pos hse] at herr ⊢
                  simp only [Except.error.injEq] at herr
                  exact absurd herr.symm h1
                · simp only [if_neg hse] at herr ⊢
                  simp at herr
              · simp only [if_neg hsep] at herr ⊢
                by_cases hhl : (mkHeaderLine vi
                    (layoutRecs (chooseMarker vi opts.marker) (writerStart vi) files).2 key).length
                    ≠ (headerPlaceholder vi).length
                · simp only [if_pos hhl] at herr ⊢
                  simp only [Except.error.injEq] at herr
                  exact absurd herr.symm h2
                · simp only [if_neg hhl] at herr ⊢
                  simp at herr

/-- Witness for C3: on empty input `createArchive` fails with EmptyInput
and the trace touches nothing. -/
theorem C3_preopen_errors_witness :
    (createArchive toyCodecs []
        { version := "3.0", key := KeyArg.undef, pickleProto := none
        , marker := none, force := false
        , outputExists := false, sidecarExists := false }).2
      = Except.error ErrK.emptyInput ∧
    ∀ op ∈ (createArchive toyCodecs []
        { version := "3.0", key := KeyArg.undef, pickleProto := none
        , marker := none, force := false
        , outputExists := false, sidecarExists := false }).1,
      mutatesOut op = false :=
  ⟨by decide, C3_preopen_errors toyCodecs []
    { version := "3.0", key := KeyArg.undef, pickleProto := none
    , marker := none, force := false
    , outputExists := false, sidecarExists := false }
    ErrK.emptyInput (by decide) (by decide) (by decide)⟩

/-! ## Claim C1: layout correctness lemmas -/

theorem layoutRecs_snd (um : Bool) :
    ∀ (files : List InFile) (c : Nat),
      (∀ f ∈ files, f.content.length = f.size) →
      (layoutRecs um c files).2 = c + (bodyBytes um files).length := by
  intro files
  induction files with
  | nil => intro c _; simp [layoutRecs, bodyBytes]
  | cons f t ih =>
    intro c hsz
    have hf := hsz f (by simp)
    have ht : ∀ x ∈ t, x.content.length = x.size := fun x hx => hsz x (by simp [hx])
    unfold layoutRecs bodyBytes
    simp only [List.flatMap_cons, List.length_append]
    rw [show (t.flatMap fun f => (if um then MARKER else []) ++ f.content)
        = bodyBytes um t from rfl]
    rw [ih _ ht]
    cases um <;> simp [MARKER] <;> omega

theorem layoutRecs_map_rel (um : Bool) :
    ∀ (files : List InFile) (c : Nat),
      (layoutRecs um c files).1.map PlacedRec.rel = files.map InFile.rel := by
  intro files
  induction files with
  | nil => intro c; simp [layoutRecs]
  | cons f t ih => intro c; simp [layoutRecs, ih]

theorem layoutRecs_cons_fst (um : Bool) (f : InFile) (t : List InFile) (c : Nat) :
    (layoutRecs um c (f :: t)).1 =
      { rel := f.rel, size := f.size, content := f.content
      , dataOffset := c + (if um then MARKER.length else 0)
      , markerOffset := if um then some c else none }
      :: (layoutRecs um (c + (if um then MARKER.length else 0) + f.size) t).1 := rfl

theorem layoutRecs_cons_snd (um : Bool) (f : InFile) (t : List InFile) (c : Nat) :
    (layoutRecs um c (f :: t)).2 =
      (layoutRecs um (c + (if um then MARKER.length else 0) + f.size) t).2 := rfl

theorem layoutRecs_le (um : Bool) :
    ∀ (files : List InFile) (c : Nat), c <= (layoutRecs um c files).2 := by
  intro files
  induction files with
  | nil => intro c; simp [layoutRecs]
  | cons g u ihg =>
    intro c
    rw [layoutRecs_cons_snd]
    have := ihg (c + (if um then MARKER.length else 0) + g.size)
    omega

theorem layoutRecs_bounds (um : Bool) :
    ∀ (files : List InFile) (c : Nat),
      ∀ r ∈ (layoutRecs um c files).1,
        c <= r.dataOffset ∧ r.dataOffset + r.size <= (layoutRecs um c files).2 := by
  intro files
  induction files with
  | nil => intro c r hr; simp [layoutRecs] at hr
  | cons f t ih =>
    intro c r hr
    rw [layoutRecs_cons_fst] at hr
    rw [layoutRecs_cons_snd]
    rcases List.mem_cons.mp hr with rfl | hr
    · refine ⟨by simp, ?_⟩
      have := layoutRecs_le um t (c + (if um then MARKER.length else 0) + f.size)
      simp
      omega
    · have := ih (c + (if um then MARKER.length else 0) + f.size) r hr
      exact ⟨by omega, this.2⟩

theorem bodyOps_cons (r : PlacedRec) (rs : List PlacedRec) :
    bodyOps (r :: rs) =
      ((match r.markerOffset with
        | some mo => [FsOp.writeAt FTgt.out mo MARKER]
        | none => []) ++ [FsOp.writeAt FTgt.out r.dataOffset r.content])
      ++ bodyOps rs := rfl

theorem bodyBytes_cons (um : Bool) (f : InFile) (t : List InFile) :
    bodyBytes um (f :: t) = ((if um then MARKER else []) ++ f.content)
      ++ bodyBytes um t := rfl

theorem foldl_bodyOps (um : Bool) :
    ∀ (files : List InFile) (img : List Nat),
      (∀ f ∈ files, f.content.length = f.size) →
      List.foldl applyOutOp img (bodyOps (layoutRecs um img.length files).1)
        = img ++ bodyBytes um files := by
  intro files
  induction files with
  | nil => intro img _; simp [layoutRecs, bodyOps, bodyBytes]
  | cons f t ih =>
    intro img hsz
    have hf := hsz f (by simp)
    have ht : ∀ x ∈ t, x.content.length = x.size := fun x hx => hsz x (by simp [hx])
    rw [layoutRecs_cons_fst, bodyOps_cons, List.foldl_append, bodyBytes_cons]
    cases um with
    | false =>
      have h1 : List.foldl applyOutOp img
          ((match (none : Option Nat) with
            | some mo => [FsOp.writeAt FTgt.out mo MARKER]
            | none => []) ++ [FsOp.writeAt FTgt.out (img.length + 0) f.content])
          = img ++ f.content := by
        simp only [List.nil_append, List.foldl_cons, List.foldl_nil, applyOutOp,
          Nat.add_zero]
        exact jsWrite_append img f.content
      simp only [Bool.false_eq_true, if_false] at h1 ⊢
      rw [h1]
      have h2 := ih (img ++ f.content) ht
      rw [show (img ++ f.content).length = img.length + 0 + f.size by simp [hf]] at h2
      rw [h2]
      simp
    | true =>
      have h1 : List.foldl applyOutOp img
          ((match (some img.length : Option Nat) with
            | some mo => [FsOp.writeAt FTgt.out mo MARKER]
            | none => []) ++ [FsOp.writeAt FTgt.out (img.length + MARKER.length) f.content])
          = img ++ MARKER ++ f.content := by
        simp only [List.foldl_cons, List.foldl_nil, List.cons_append, List.nil_append,
          applyOutOp]
        rw [jsWrite_append img MARKER]
        rw [show img.length + MARKER.length = (img ++ MARKER).length by simp]
        exact jsWrite_append (img ++ MARKER) f.content
      simp only [if_true] at h1 ⊢
      rw [h1]
      have h2 := ih (img ++ MARKER ++ f.content) ht
      rw [show (img ++ MARKER ++ f.content).length
          = img.length + MARKER.length + f.size by simp [hf]; omega] at h2
      rw [h2]
      simp

theorem jsWrite_zero_nil (d : List Nat) : jsWrite [] 0 d = d := by
  simp [jsWrite]

/-- Replaying the embedded-family trace yields: patched header line, then
markers and payloads, then the compressed index — one contiguous image. -/
theorem runOps_embOpsPatched (vi : VersionInfo) (um : Bool) (files : List InFile)
    (comp : List Nat) (key : Nat)
    (hsz : ∀ f ∈ files, f.content.length = f.size)
    (hhl : (mkHeaderLine vi (layoutRecs um (headerPlaceholder vi).length files).2 key).length
      = (headerPlaceholder vi).length) :
    runOps (embOpsPatched vi (layoutRecs um (headerPlaceholder vi).length files).1
        (layoutRecs um (headerPlaceholder vi).length files).2 comp key)
      = mkHeaderLine vi (layoutRecs um (headerPlaceholder vi).length files).2 key
        ++ bodyBytes um files ++ comp := by
  unfold runOps embOpsPatched embOps
  simp only [List.cons_append, List.append_assoc, List.foldl_cons, List.foldl_append,
    List.foldl_nil, applyOutOp]
  rw [jsWrite_zero_nil]
  rw [foldl_bodyOps um files (headerPlaceholder vi) hsz]
  set pl := headerPlaceholder vi with hpl
  set body := bodyBytes um files with hbody
  set io := (layoutRecs um pl.length files).2 with hiodef
  set hl := mkHeaderLine vi io key with hhldef
  have hio : io = (pl ++ body).length := by
    rw [hiodef, layoutRecs_snd um files pl.length hsz]
    simp
  rw [hio, jsWrite_append]
  rw [show (pl ++ body).length + comp.length = ((pl ++ body) ++ comp).length by
    simp; omega]
  rw [jsTrunc_self]
  rw [jsWrite_head _ _ (by rw [hhl]; simp)]
  rw [hhl]
  rw [List.append_assoc, List.drop_left]

/-- Replaying the family-1 trace yields exactly the payload concatenation
on the archive file (the index goes to the sidecar). -/
theorem runOps_sideOpsFull (files : List InFile) (comp : List Nat)
    (hsz : ∀ f ∈ files, f.content.length = f.size) :
    runOps (sideOpsFull (layoutRecs false 0 files).1 (layoutRecs false 0 files).2 comp)
      = bodyBytes false files := by
  have hpay : ∀ (fs : List InFile) (img : List Nat),
      (∀ f ∈ fs, f.content.length = f.size) →
      List.foldl applyOutOp img
          ((layoutRecs false img.length fs).1.map
            (fun r => FsOp.writeAt FTgt.out r.dataOffset r.content))
        = img ++ bodyBytes false fs := by
    intro fs
    induction fs with
    | nil => intro img _; simp [layoutRecs, bodyBytes]
    | cons f t ih =>
      intro img hsz'
      have hf := hsz' f (by simp)
      have ht : ∀ x ∈ t, x.content.length = x.size :=
        fun x hx => hsz' x (by simp [hx])
      rw [layoutRecs_cons_fst]
      simp only [List.map_cons, List.foldl_cons, applyOutOp, Bool.false_eq_true,
        if_false, Nat.add_zero]
      rw [jsWrite_append img f.content]
      have h2 := ih (img ++ f.content) ht
      rw [show (img ++ f.content).length = img.length + f.size by simp [hf]] at h2
      rw [h2, bodyBytes_cons]
      simp
  have hio : (layoutRecs false 0 files).2 = (bodyBytes false files).length := by
    have := layoutRecs_snd false files 0 hsz
    omega
  unfold runOps sideOpsFull sideOps
  simp only [List.cons_append, List.append_assoc, List.foldl_cons, List.foldl_append,
    List.foldl_nil, applyOutOp]
  have h0 := hpay files []
  simp only [List.length_nil, List.nil_append] at h0
  rw [h0 hsz, hio, jsTrunc_self]

/-- A successful embedded-family `createArchive` run determines the key,
the encoded index, the header-width identity, and the byte images. -/
theorem createArchive_ok_embedded (C : Codecs) (files : List InFile)
    (opts : CreateOpts) (vi : VersionInfo) (res : CreateResult)
    (hvi : normalizeRpaVersion opts.version = Except.ok vi)
    (hsep : vi.separateIndex = false)
    (hok : (createArchive C files opts).2 = Except.ok res) :
    ∃ key encIdx,
      parseXorKey opts.key vi.defaultKey vi.usesXor = Except.ok key ∧
      encodeIndex vi.usesXor key
          (layoutRecs (chooseMarker vi opts.marker) (writerStart vi) files).1
        = Except.ok encIdx ∧
      (mkHeaderLine vi
          (layoutRecs (chooseMarker vi opts.marker) (writerStart vi) files).2
          key).length
        = (headerPlaceholder vi).length ∧
      res.image = runOps (embOpsPatched vi
        (layoutRecs (chooseMarker vi opts.marker) (writerStart vi) files).1
        (layoutRecs (chooseMarker vi opts.marker) (writerStart vi) files).2
        (C.deflate (C.dumps encIdx)) key) ∧
      res.sidecar = none := by
  unfold createArchive at hok
  rw [hvi] at hok
  by_cases h0 : files.length = 0
  · simp only [if_pos h0] at hok; simp at hok
  · simp only [if_neg h0] at hok
    by_cases hfo : opts.outputExists = true ∧ ¬ opts.force = true
    · simp only [if_pos hfo] at hok; simp at hok
    · simp only [if_neg hfo] at hok
      cases hk : parseXorKey opts.key vi.defaultKey vi.usesXor with
      | error err => simp only [hk] at hok; simp at hok
      | ok key =>
        simp only [hk] at hok
        by_cases hp : chooseProtocol vi opts.pickleProto < 0
        · simp only [if_pos hp] at hok; simp at hok
        · simp only [if_neg hp] at hok
          cases he : encodeIndex vi.usesXor key
              (layoutRecs (chooseMarker vi opts.marker) (writerStart vi) files).1 with
          | error err => simp only [he] at hok; simp at hok
          | ok enc =>
            simp only [he, hsep, Bool.false_eq_true, if_false] at hok
            by_cases hhl : (mkHeaderLine vi
                (layoutRecs (chooseMarker vi opts.marker) (writerStart vi) files).2
                key).length ≠ (headerPlaceholder vi).length
            · simp only [if_pos hhl] at hok; simp at hok
            · simp only [if_neg hhl] at hok
              simp only [Except.ok.injEq] at hok
              refine ⟨key, enc, rfl, he, by omega, ?_, ?_⟩
              · rw [← hok]
              · rw [← hok]

/-- A successful family-1 `createArchive` run determines the encoded
index and the two byte images. -/
theorem createArchive_ok_separate (C : Codecs) (files : List InFile)
    (opts : CreateOpts) (vi : VersionInfo) (res : CreateResult)
    (hvi : normalizeRpaVersion opts.version = Except.ok vi)
    (hsep : vi.separateIndex = true)
    (hok : (createArchive C files opts).2 = Except.ok res) :
    ∃ key encIdx,
      parseXorKey opts.key vi.defaultKey vi.usesXor = Except.ok key ∧
      encodeIndex vi.usesXor key
          (layoutRecs (chooseMarker vi opts.marker) (writerStart vi) files).1
        = Except.ok encIdx ∧
      res.image = runOps (sideOpsFull
        (layoutRecs (chooseMarker vi opts.marker) (writerStart vi) files).1
        (layoutRecs (chooseMarker vi opts.marker) (writerStart vi) files).2
        (C.deflate (C.dumps encIdx))) ∧
      res.sidecar = some (C.deflate (C.dumps encIdx)) := by
  unfold createArchive at hok
  rw [hvi] at hok
  by_cases h0 : files.length = 0
  · simp only [if_pos h0] at hok; simp at hok
  · simp only [if_neg h0] at hok
    by_cases hfo : opts.outputExists = true ∧ ¬ opts.force = true
    · simp only [if_pos hfo] at hok; simp at hok
    · simp only [if_neg hfo] at hok
      cases hk : parseXorKey opts.key vi.defaultKey vi.usesXor with
      | error err => simp only [hk] at hok; simp at hok
      | ok key =>
        simp only [hk] at hok
        by_cases hp : chooseProtocol vi opts.pickleProto < 0
        · simp only [if_pos hp] at hok; simp at hok
        · simp only [if_neg hp] at hok
          cases he : encodeIndex vi.usesXor key
              (layoutRecs (chooseMarker vi opts.marker) (writerStart vi) files).1 with
          | error err => simp only [he] at hok; simp at hok
          | ok enc =>
            simp only [he, hsep, if_true] at hok
            by_cases hse : opts.sidecarExists = true ∧ ¬ opts.force = true
            · simp only [if_pos hse] at hok; simp at hok
            · simp only [if_neg hse] at hok
              simp only [Except.ok.injEq] at hok
              refine ⟨key, enc, rfl, he, ?_, ?_⟩
              · rw [← hok]
              · rw [← hok]

/-- Every key produced by `parseXorKey` is a 32-bit value. -/
theorem parseXorKey_lt (v : KeyArg) (fb : Nat) (en : Bool) (k : Nat)
    (h : parseXorKey v fb en = Except.ok k) : k < 4294967296 := by
  cases en with
  | false =>
    unfold parseXorKey at h
    rw [if_pos (by simp)] at h
    simp only [Except.ok.injEq] at h
    omega
  | true =>
    unfold parseXorKey at h
    rw [if_neg (by simp)] at h
    cases v with
    | undef =>
      simp only [Except.ok.injEq] at h
      omega
    | num n =>
      simp only [Except.ok.injEq] at h
      unfold jsToUint32 at h
      omega
    | str ds =>
      dsimp only at h
      by_cases hds : ds = []
      · rw [if_pos hds] at h
        simp only [Except.ok.injEq] at h
        omega
      · rw [if_neg hds] at h
        cases hp : jsParseIntHex (if startsWith0x ((trimBytes ds).map lowerByte)
            then trimBytes ds else 48 :: 120 :: trimBytes ds) with
        | none => rw [hp] at h; simp at h
        | some i =>
          rw [hp] at h
          simp only [Except.ok.injEq] at h
          unfold jsToUint32 at h
          omega

/-- The non-XOR encode loop never fails and emits plain 2-tuples. -/
theorem encodeIndex_false_ok (key : Nat) (recs : List PlacedRec) :
    encodeIndex false key recs = Except.ok (recs.map
      (fun r => (r.rel, [((r.dataOffset : Int), (r.size : Int),
        (none : Option (List Nat)))]))) := by
  unfold encodeIndex
  rw [if_neg (by simp)]
  induction recs with
  | nil => rfl
  | cons r t ih =>
    unfold exceptMap
    rw [ih]
    simp

/-- A successful XOR encode emits masked 2-tuples and certifies that every
record fits in 32 bits. -/
theorem encodeIndex_true_ok (key : Nat) (recs : List PlacedRec)
    (enc : RawIndex) (h : encodeIndex true key recs = Except.ok enc) :
    enc = recs.map (fun r => (r.rel,
        [(((jsXorShiftR0 (r.dataOffset : Int) (key : Int) : Nat) : Int),
          ((jsXorShiftR0 (r.size : Int) (key : Int) : Nat) : Int),
          (none : Option (List Nat)))])) ∧
    ∀ r ∈ recs, r.dataOffset <= 0xFFFFFFFF ∧ r.size <= 0xFFFFFFFF := by
  unfold encodeIndex at h
  rw [if_pos rfl] at h
  induction recs generalizing enc with
  | nil =>
    unfold exceptMap at h
    simp only [Except.ok.injEq] at h
    subst h
    exact ⟨rfl, by simp⟩
  | cons r t ih =>
    unfold exceptMap at h
    by_cases hr : r.dataOffset > 0xFFFFFFFF ∨ r.size > 0xFFFFFFFF
    · rw [if_pos hr] at h
      simp at h
    · rw [if_neg hr] at h
      cases ht : exceptMap (fun r =>
          if r.dataOffset > 0xFFFFFFFF ∨ r.size > 0xFFFFFFFF then
            Except.error ErrK.tooLarge32
          else
            Except.ok (r.rel,
              [(((jsXorShiftR0 (r.dataOffset : Int) (key : Int) : Nat) : Int),
                ((jsXorShiftR0 (r.size : Int) (key : Int) : Nat) : Int),
                (none : Option (List Nat)))])) t with
      | error e =>
        rw [ht] at h
        simp at h
      | ok enc' =>
        rw [ht] at h
        simp only [Except.ok.injEq] at h
        subst h
        obtain ⟨he, hb⟩ := ih enc' ht
        refine ⟨by rw [he]; simp, ?_⟩
        intro x hx
        rcases List.mem_cons.mp hx with rfl | hx
        · omega
        · exact hb x hx

/-- `processRawIndex` on singleton 2-tuple entries keeps the pairs. -/
theorem processRawIndex_map (recs : List PlacedRec) (g : PlacedRec → Int × Int) :
    processRawIndex (recs.map (fun r => (r.rel, [((g r).1, (g r).2,
        (none : Option (List Nat)))])))
      = Except.ok (recs.map (fun r => (r.rel, (g r).1, (g r).2))) := by
  induction recs with
  | nil => rfl
  | cons r t ih =>
    unfold processRawIndex at ih ⊢
    simp only [List.map_cons]
    unfold exceptMap
    dsimp only
    rw [ih]

/-- `decodeXORIndex` on singleton 2-tuple entries XORs both pair fields. -/
theorem decodeXORIndex_map (recs : List PlacedRec) (kv : Int)
    (g : PlacedRec → Int × Int) :
    decodeXORIndex (recs.map (fun r => (r.rel, [((g r).1, (g r).2,
        (none : Option (List Nat)))]))) kv
      = Except.ok (recs.map (fun r => (r.rel,
          jsXorInt32 (g r).1 kv, jsXorInt32 (g r).2 kv))) := by
  induction recs with
  | nil => rfl
  | cons r t ih =>
    unfold decodeXORIndex at ih ⊢
    simp only [List.map_cons]
    unfold exceptMap
    dsimp only
    rw [ih]

/-- A width-16 hex field can only print a value below `16 ^ 16`. -/
theorem hex16_length_imp (n : Nat) (h : (hex16 n).length = 16) : n < 16 ^ 16 := by
  have hdigs : ∀ b ∈ hex16 n, isHexByte b :=
    padZeros_hex 16 (natToHexU n) (natToHexU_digits n)
  have hlt := hexVal_lt (hex16 n) hdigs
  rw [h] at hlt
  have hval : hexVal (hex16 n) = n := by
    unfold hex16
    rw [hexVal_padZeros 16 (natToHexU n) (natToHexU_digits n), hexVal_natToHexU]
  omega

/-- The header-width identity of a successful embedded write pins the
index offset below `16 ^ 16`. -/
theorem headerWidth_io_lt (vi : VersionInfo) (io key : Nat)
    (hkey : key < 4294967296)
    (heq : (mkHeaderLine vi io key).length = (headerPlaceholder vi).length) :
    io < 16 ^ 16 := by
  have hk8 : (hex8 key).length = 8 := hex8_length key (by norm_num; omega)
  apply hex16_length_imp
  unfold mkHeaderLine headerPlaceholder at heq
  cases hx : vi.usesXor with
  | false =>
    simp only [hx, Bool.false_eq_true, if_false] at heq
    simp at heq
    omega
  | true =>
    simp only [hx, if_true] at heq
    simp [hk8] at heq
    omega

/-- Whether the first 50-byte header line of a family-1 archive spoofs an
`RPA-` signature of another family (the condition under which the reader
would not take the family-1 sidecar path). -/
def family1Spoofed (buf : List Nat) : Bool :=
  match (splitWs (takeUntilNl (buf.take 50))).head? with
  | none => false
  | some sig => sig.take 4 = strBytes "RPA-" ∧ sig ∉ rpaSigs1

/-- On an unspoofed buffer, `readHeader` produces a family-1 header. -/
theorem readHeader_family1_safe (buf : List Nat)
    (hsafe : family1Spoofed buf = false) :
    ∃ h, (rpx_readHeader buf).1 = Except.ok h ∧ h.version ∈ rpaSigs1 := by
  unfold family1Spoofed at hsafe
  cases hh : (splitWs (takeUntilNl (buf.take 50))).head? with
  | none =>
    refine ⟨fallbackHeader, ?_, by unfold fallbackHeader rpaSigs1; simp⟩
    unfold rpx_readHeader
    simp only [hh]
  | some sig =>
    rw [hh] at hsafe
    have hsafe' : ¬ (sig.take 4 = strBytes "RPA-" ∧ sig ∉ rpaSigs1) := by
      simpa using hsafe
    by_cases hp : sig.take 4 = strBytes "RPA-"
    · have h1 : sig ∈ rpaSigs1 := by
        by_contra hc
        exact hsafe' ⟨hp, hc⟩
      refine ⟨{ version := sig, data := takeUntilNl (buf.take 50)
              , offset := some (JsNum.int 0), key := some (JsNum.int 0) }, ?_, h1⟩
      unfold rpx_readHeader
      simp only [hh, if_pos hp, if_pos h1]
    · refine ⟨fallbackHeader, ?_, by unfold fallbackHeader rpaSigs1; simp⟩
      unfold rpx_readHeader
      simp only [hh, if_neg hp]

/-- For each input file, the decoded index finds its laid-out record, and
slicing the full image at that record's range returns the original
content. -/
theorem layout_lookup_slice (um : Bool) :
    ∀ (files : List InFile) (pre post : List Nat),
      (∀ f ∈ files, f.content.length = f.size) →
      (files.map InFile.rel).Nodup →
      ∀ f ∈ files,
        ∃ o s : Nat,
          assocFind ((layoutRecs um pre.length files).1.map
              (fun r => (r.rel, ((r.dataOffset : Int), (r.size : Int))))) f.rel
            = some ((o : Int), (s : Int)) ∧
          jsSubarray (pre ++ bodyBytes um files ++ post) (o : Int)
              ((o : Int) + (s : Int))
            = f.content := by
  intro files
  induction files with
  | nil => intro pre post _ _ f hf; simp at hf
  | cons g t ih =>
    intro pre post hsz hnodup f hf
    have hg := hsz g (by simp)
    have ht : ∀ x ∈ t, x.content.length = x.size := fun x hx => hsz x (by simp [hx])
    have hnd : (t.map InFile.rel).Nodup := by
      simp only [List.map_cons, List.nodup_cons] at hnodup
      exact hnodup.2
    have hgnot : g.rel ∉ t.map InFile.rel := by
      simp only [List.map_cons, List.nodup_cons] at hnodup
      exact hnodup.1
    set mk : List Nat := if um then MARKER else [] with hmk
    have hmlen : (if um then MARKER.length else 0) = mk.length := by
      cases um <;> simp [hmk]
    rw [layoutRecs_cons_fst]
    rcases List.mem_cons.mp hf with rfl | hf
    · refine ⟨pre.length + (if um then MARKER.length else 0), f.size, ?_, ?_⟩
      · unfold assocFind
        simp
      · rw [bodyBytes_cons]
        have harr : pre ++ ((mk ++ f.content) ++ bodyBytes um t) ++ post
            = (pre ++ mk) ++ (f.content ++ (bodyBytes um t ++ post)) := by
          simp [List.append_assoc]
        rw [hmlen, harr]
        have hlen : (pre.length + mk.length) + f.size
            <= ((pre ++ mk) ++ (f.content ++ (bodyBytes um t ++ post))).length := by
          simp [hg]
          omega
        rw [show ((pre.length + mk.length : Nat) : Int)
            = (((pre ++ mk).length : Nat) : Int) by simp]
        rw [jsSubarray_slice _ _ _ (by simpa using hlen)]
        rw [List.drop_left]
        rw [← hg, List.take_left]
    · have hrelne : g.rel ≠ f.rel := by
        intro hc
        exact hgnot (hc ▸ List.mem_map_of_mem InFile.rel hf)
      have hrec := ih (pre ++ mk ++ g.content) post ht hnd f hf
      rw [show (pre ++ mk ++ g.content).length
          = pre.length + (if um then MARKER.length else 0) + g.size by
        simp [hg, hmlen]; omega] at hrec
      obtain ⟨o, s, hfind, hslice⟩ := hrec
      refine ⟨o, s, ?_, ?_⟩
      · unfold assocFind
        simp only [List.map_cons]
        rw [if_neg (by simpa using hrelne)]
        exact hfind
      · rw [bodyBytes_cons]
        rw [← hmk]
        have harr : pre ++ ((mk ++ g.content) ++ bodyBytes um t) ++ post
            = (pre ++ mk ++ g.content) ++ bodyBytes um t ++ post := by
          simp [List.append_assoc]
        rw [harr]
        exact hslice

theorem hexField_not_ws (l : List Nat) (hl : ∀ b ∈ l, isHexByte b) :
    ∀ b ∈ l, isWs b = false :=
  fun b hb => isHexByte_not_ws b (hl b hb)

theorem hex16_props (n : Nat) :
    (∀ b ∈ hex16 n, isWs b = false) ∧ (∀ b ∈ hex16 n, b ≠ 10) ∧ hex16 n ≠ [] := by
  have hdigs : ∀ b ∈ hex16 n, isHexByte b :=
    padZeros_hex 16 (natToHexU n) (natToHexU_digits n)
  refine ⟨hexField_not_ws _ hdigs, fun b hb => isHexByte_ne_ten b (hdigs b hb), ?_⟩
  intro hc
  have : (hex16 n).length = 0 := by rw [hc]; rfl
  unfold hex16 padZeros at this
  simp at this
  exact natToHexU_ne_nil n this.2

theorem hex8_props (n : Nat) :
    (∀ b ∈ hex8 n, isWs b = false) ∧ (∀ b ∈ hex8 n, b ≠ 10) ∧ hex8 n ≠ [] := by
  have hdigs : ∀ b ∈ hex8 n, isHexByte b :=
    padZeros_hex 8 (natToHexU n) (natToHexU_digits n)
  refine ⟨hexField_not_ws _ hdigs, fun b hb => isHexByte_ne_ten b (hdigs b hb), ?_⟩
  intro hc
  have : (hex8 n).length = 0 := by rw [hc]; rfl
  unfold hex8 padZeros at this
  simp at this
  exact natToHexU_ne_nil n this.2

/-- Parsing an emitted family-2 header line at the head of an archive. -/
theorem readHeader_line2 (io : Nat) (hio : io < 16 ^ 16) (rest : List Nat) :
    (rpx_readHeader ((strBytes "RPA-2.0" ++ 32 :: hex16 io) ++ 10 :: rest)).1
      = Except.ok { version := strBytes "RPA-2.0"
                  , data := strBytes "RPA-2.0" ++ 32 :: hex16 io
                  , offset := some (JsNum.int (io : Int))
                  , key := some (JsNum.int 0) } := by
  obtain ⟨hw16, hn16, hne16⟩ := hex16_props io
  set lineBody := strBytes "RPA-2.0" ++ 32 :: hex16 io with hlb
  have hlen : lineBody.length = 24 := by
    rw [hlb]
    simp [strBytes, hex16_length io hio]
  have htake : (lineBody ++ 10 :: rest).take 50
      = lineBody ++ (10 :: rest).take 26 := by
    rw [List.take_append_eq_append_take]
    rw [List.take_of_length_le (by omega), hlen]
  have hnn : ∀ b ∈ lineBody, b ≠ 10 := by
    intro b hb
    rw [hlb] at hb
    rcases List.mem_append.mp hb with h | h
    · exact (by decide : ∀ x ∈ strBytes "RPA-2.0", x ≠ 10) b h
    · rcases List.mem_cons.mp h with rfl | h
      · omega
      · exact hn16 b h
  have hline : takeUntilNl (lineBody ++ (10 :: rest).take 26) = lineBody := by
    rw [show ((10 :: rest).take 26) = 10 :: rest.take 25 by simp]
    exact takeUntilNl_append lineBody (rest.take 25) hnn
  have htoks : splitWs lineBody = [strBytes "RPA-2.0", hex16 io] :=
    splitWs_two_tokens (strBytes "RPA-2.0") (hex16 io) (by decide) hw16
      (by decide) hne16
  have e1 : (strBytes "RPA-2.0").take 4 = strBytes "RPA-" := by decide
  have e2 : strBytes "RPA-2.0" ∉ rpaSigs1 := by decide
  have e3 : strBytes "RPA-2.0" ∈ rpaSigs2 := by decide
  unfold rpx_readHeader
  simp only [htake, hline, htoks, List.head?_cons, e1, if_true, if_neg e2,
    if_pos e3]
  simp only [List.get?_cons_succ, List.get?_cons_zero]
  rw [hex16_parse io hio]
  rfl

/-- Parsing an emitted XOR-family header line (`RPA-3.0`, `RPA-3.2` or
`RPA-4.0`) at the head of an archive. -/
theorem readHeader_lineXor (tag : List Nat) (io key : Nat)
    (hio : io < 16 ^ 16) (hkey : key < 16 ^ 8)
    (htag34 : tag ∈ rpaSigs3 ∨ tag ∈ rpaSigs4)
    (htagP : tag.take 4 = strBytes "RPA-")
    (htag1 : tag ∉ rpaSigs1) (htag2 : tag ∉ rpaSigs2)
    (htagNw : ∀ b ∈ tag, isWs b = false) (htagNe : tag ≠ [])
    (htag10 : ∀ b ∈ tag, b ≠ 10) (htagLen : tag.length <= 23) (rest : List Nat) :
    (rpx_readHeader ((tag ++ 32 :: (hex16 io ++ 32 :: hex8 key)) ++ 10 :: rest)).1
      = Except.ok { version := tag
                  , data := tag ++ 32 :: (hex16 io ++ 32 :: hex8 key)
                  , offset := some (JsNum.int (io : Int))
                  , key := some (JsNum.int (key : Int)) } := by
  obtain ⟨hw16, hn16, hne16⟩ := hex16_props io
  obtain ⟨hw8, hn8, hne8⟩ := hex8_props key
  set lineBody := tag ++ 32 :: (hex16 io ++ 32 :: hex8 key) with hlb
  have hlen : lineBody.length = tag.length + 26 := by
    rw [hlb]
    simp [hex16_length io hio, hex8_length key hkey]
  have htake : (lineBody ++ 10 :: rest).take 50
      = lineBody ++ (10 :: rest).take (50 - lineBody.length) := by
    rw [List.take_append_eq_append_take]
    rw [List.take_of_length_le (by omega)]
  have hnn : ∀ b ∈ lineBody, b ≠ 10 := by
    intro b hb
    rw [hlb] at hb
    rcases List.mem_append.mp hb with h | h
    · exact htag10 b h
    · rcases List.mem_cons.mp h with rfl | h
      · omega
      · rcases List.mem_append.mp h with h | h
        · exact hn16 b h
        · rcases List.mem_cons.mp h with rfl | h
          · omega
          · exact hn8 b h
  have hline : takeUntilNl (lineBody ++ (10 :: rest).take (50 - lineBody.length))
      = lineBody := by
    rw [show ((10 :: rest).take (50 - lineBody.length))
        = 10 :: rest.take (50 - lineBody.length - 1) by
      rw [List.take_cons (by omega)]]
    exact takeUntilNl_append lineBody _ hnn
  have htoks : splitWs lineBody = [tag, hex16 io, hex8 key] :=
    splitWs_three_tokens tag (hex16 io) (hex8 key) htagNw hw16 hw8
      htagNe hne16 hne8
  have hor : tag ∈ rpaSigs3 ∨ tag ∈ rpaSigs4 := htag34
  unfold rpx_readHeader
  simp only [htake, hline, htoks, List.head?_cons, htagP, if_true,
    if_neg htag1, if_neg htag2, if_pos hor]
  simp only [List.get?_cons_succ, List.get?_cons_zero]
  rw [hex16_parse io hio, hex8_parse key hkey]
  rfl

/-- `parseIndex` on an embedded-family archive whose header offset points
exactly at the compressed index tail. -/
theorem parseIndex_embedded (C : Codecs) (h : RHeader) (pre : List Nat)
    (x : List Nat) (sidecar : Option (List Nat))
    (hver : h.version ∉ rpaSigs1)
    (hoff : h.offset = some (JsNum.int (pre.length : Int)))
    (hzlen : 0 < (C.deflate x).length)
    (hz : C.inflate (C.deflate x) = some x) :
    rpx_parseIndex C (pre ++ C.deflate x) sidecar h
      = match C.loads x with
        | none => Except.error ErrK.badPickle
        | some raw =>
          if jsKeyTruthy h.key then decodeXORIndex raw (jsKeyVal h.key)
          else processRawIndex raw := by
  unfold rpx_parseIndex
  rw [if_neg hver]
  have hge : jsNumGe h.offset (pre ++ C.deflate x).length = false := by
    rw [hoff]
    unfold jsNumGe
    simp only [List.length_append, decide_eq_false_iff_not]
    push_cast
    omega
  rw [hge]
  simp only [Bool.false_eq_true, if_false]
  have harg : jsNumSubarrayArg h.offset = (pre.length : Int) := by
    rw [hoff]
    rfl
  rw [harg]
  rw [jsSubarrayFrom_drop _ _ (by simp)]
  rw [List.drop_left]
  unfold inflateChain
  rw [hz]

/-- Round-trip for an embedded XOR family (RPA-3.0 / 3.2 / 4.0). -/
theorem c1_aux_xor (C : Codecs) (files : List InFile) (opts : CreateOpts)
    (vi : VersionInfo) (res : CreateResult)
    (hz : ∀ x, C.inflate (C.deflate x) = some x)
    (hzlen : ∀ x, 0 < (C.deflate x).length)
    (hld : ∀ r, C.loads (C.dumps r) = some r)
    (hvi : normalizeRpaVersion opts.version = Except.ok vi)
    (hxor : vi.usesXor = true) (hsep : vi.separateIndex = false)
    (htag34 : vi.header ∈ rpaSigs3 ∨ vi.header ∈ rpaSigs4)
    (htagP : (vi.header).take 4 = strBytes "RPA-")
    (htag1 : vi.header ∉ rpaSigs1) (htag2 : vi.header ∉ rpaSigs2)
    (htagNw : ∀ b ∈ vi.header, isWs b = false) (htagNe : vi.header ≠ [])
    (htag10 : ∀ b ∈ vi.header, b ≠ 10) (htagLen : vi.header.length <= 23)
    (hok : (createArchive C files opts).2 = Except.ok res)
    (hnodup : (files.map InFile.rel).Nodup)
    (hsz : ∀ f ∈ files, f.content.length = f.size)
    (hbound : (layoutRecs (chooseMarker vi opts.marker) (writerStart vi) files).2
      < 2147483648) :
    rpx_listFiles C res.image res.sidecar = Except.ok (files.map InFile.rel) ∧
    ∀ f ∈ files, rpx_extractFile C res.image res.sidecar f.rel
      = Except.ok f.content := by
  obtain ⟨key, enc, hkey, henc, hhl, himg, hsc⟩ :=
    createArchive_ok_embedded C files opts vi res hvi hsep hok
  set um := chooseMarker vi opts.marker with hum
  have hws : writerStart vi = (headerPlaceholder vi).length := by
    unfold writerStart
    rw [if_neg (by simp [hsep])]
  rw [hws] at henc hhl himg hbound
  set recs := (layoutRecs um (headerPlaceholder vi).length files).1 with hrecs
  set io := (layoutRecs um (headerPlaceholder vi).length files).2 with hiodef
  have hk32 : key < 4294967296 := parseXorKey_lt _ _ _ _ hkey
  have hio16 : io < 16 ^ 16 := headerWidth_io_lt vi io key hk32 hhl
  rw [hxor] at henc
  obtain ⟨hencv, hbounds⟩ := encodeIndex_true_ok key recs enc henc
  set comp := C.deflate (C.dumps enc) with hcomp
  rw [runOps_embOpsPatched vi um files comp key hsz hhl] at himg
  set mkHL := mkHeaderLine vi io key with hmkhl
  set body := bodyBytes um files with hbody
  have hmkshape : mkHL = (vi.header ++ 32 :: (hex16 io ++ 32 :: hex8 key)) ++ [10] := by
    rw [hmkhl]
    unfold mkHeaderLine
    rw [if_pos (by rw [hxor])]
    simp [List.append_assoc]
  have himg2 : res.image = (vi.header ++ 32 :: (hex16 io ++ 32 :: hex8 key))
      ++ 10 :: (body ++ comp) := by
    rw [himg, hmkshape]
    simp [List.append_assoc]
  set hdr : RHeader :=
    { version := vi.header
    , data := vi.header ++ 32 :: (hex16 io ++ 32 :: hex8 key)
    , offset := some (JsNum.int (io : Int))
    , key := some (JsNum.int (key : Int)) } with hhdrdef
  have hhdr : (rpx_readHeader res.image).1 = Except.ok hdr := by
    rw [himg2]
    exact readHeader_lineXor vi.header io key hio16 (by norm_num; omega)
      htag34 htagP htag1 htag2 htagNw htagNe htag10 htagLen (body ++ comp)
  have hprelen : (mkHL ++ body).length = io := by
    have hsnd := layoutRecs_snd um files (headerPlaceholder vi).length hsz
    rw [← hbody] at hsnd
    rw [← hiodef] at hsnd
    simp only [List.length_append]
    rw [hhl]
    omega
  have hbufshape : res.image = (mkHL ++ body) ++ comp := by
    rw [himg]
  have hboundsRec : ∀ r ∈ recs, r.dataOffset < 2147483648 ∧ r.size < 2147483648 := by
    intro r hr
    have := layoutRecs_bounds um files (headerPlaceholder vi).length r hr
    omega
  have hdecode :
      (match C.loads (C.dumps enc) with
        | none => Except.error ErrK.badPickle
        | some raw =>
          if jsKeyTruthy hdr.key then decodeXORIndex raw (jsKeyVal hdr.key)
          else processRawIndex raw)
      = Except.ok (recs.map (fun r =>
          (r.rel, ((r.dataOffset : Int), (r.size : Int))))) := by
    rw [hld enc]
    by_cases hk0 : key = 0
    · have htr : jsKeyTruthy hdr.key = false := by
        rw [hhdrdef]
        unfold jsKeyTruthy
        subst hk0
        simp
      rw [htr]
      simp only [Bool.false_eq_true, if_false]
      rw [hencv]
      rw [processRawIndex_map recs (fun r =>
        (((jsXorShiftR0 (r.dataOffset : Int) (key : Int) : Nat) : Int),
         ((jsXorShiftR0 (r.size : Int) (key : Int) : Nat) : Int)))]
      congr 1
      apply List.map_congr_left
      intro r hr
      obtain ⟨hb1, hb2⟩ := hbounds r hr
      subst hk0
      dsimp only
      rw [jsXorShiftR0_eq_xor r.dataOffset 0 (by omega) (by norm_num)]
      rw [jsXorShiftR0_eq_xor r.size 0 (by omega) (by norm_num)]
      have e1 : Nat.xor r.dataOffset 0 = r.dataOffset := by
        show r.dataOffset ^^^ 0 = r.dataOffset
        simp
      have e2 : Nat.xor r.size 0 = r.size := by
        show r.size ^^^ 0 = r.size
        simp
      rw [e1, e2]
    · have htr : jsKeyTruthy hdr.key = true := by
        rw [hhdrdef]
        unfold jsKeyTruthy
        simp
        exact_mod_cast hk0
      rw [htr]
      simp only [if_true]
      have hkv : jsKeyVal hdr.key = (key : Int) := by
        rw [hhdrdef]
        rfl
      rw [hkv, hencv]
      rw [decodeXORIndex_map recs (key : Int) (fun r =>
        (((jsXorShiftR0 (r.dataOffset : Int) (key : Int) : Nat) : Int),
         ((jsXorShiftR0 (r.size : Int) (key : Int) : Nat) : Int)))]
      congr 1
      apply List.map_congr_left
      intro r hr
      obtain ⟨hb1, hb2⟩ := hbounds r hr
      obtain ⟨h31a, h31b⟩ := hboundsRec r hr
      dsimp only
      rw [jsXorShiftR0_eq_xor r.dataOffset key (by omega) hk32]
      rw [jsXorShiftR0_eq_xor r.size key (by omega) hk32]
      rw [jsXorInt32_roundtrip r.dataOffset key h31a hk32]
      rw [jsXorInt32_roundtrip r.size key h31b hk32]
  have hidx : rpx_readIndex C res.image res.sidecar
      = Except.ok (recs.map (fun r =>
          (r.rel, ((r.dataOffset : Int), (r.size : Int))))) := by
    unfold rpx_readIndex
    rw [hhdr]
    show rpx_parseIndex C res.image res.sidecar hdr = _
    rw [hbufshape, hcomp]
    rw [parseIndex_embedded C hdr (mkHL ++ body) (C.dumps enc) res.sidecar
      (by rw [hhdrdef]; exact htag1)
      (by rw [hhdrdef]; simp [hprelen])
      (hzlen (C.dumps enc))
      (hz (C.dumps enc))]
    exact hdecode
  constructor
  · unfold rpx_listFiles
    rw [hidx]
    simp only [List.map_map]
    have hcf : (Prod.fst ∘ fun r : PlacedRec =>
        (r.rel, ((r.dataOffset : Int), (r.size : Int)))) = PlacedRec.rel := rfl
    rw [hcf, hrecs, layoutRecs_map_rel]
  · intro f hf
    have hslice := layout_lookup_slice um files mkHL comp hsz hnodup f hf
    rw [show mkHL.length = (headerPlaceholder vi).length from hhl] at hslice
    obtain ⟨o, s, hfind, hsl⟩ := hslice
    rw [← hrecs] at hfind
    unfold rpx_extractFile
    rw [hidx]
    show (match assocFind (recs.map (fun r =>
        (r.rel, ((r.dataOffset : Int), (r.size : Int))))) f.rel with
      | none => Except.error ErrK.notFound
      | some os => Except.ok (jsSubarray res.image os.1 (os.1 + os.2)))
      = Except.ok f.content
    rw [hfind]
    show Except.ok (jsSubarray res.image ((o : Int)) ((o : Int) + (s : Int)))
      = Except.ok f.content
    rw [himg]
    exact congrArg Except.ok hsl

/-- Round-trip for family RPA-2.0 (embedded index, no XOR). -/
theorem c1_aux_f2 (C : Codecs) (files : List InFile) (opts : CreateOpts)
    (res : CreateResult)
    (hzlen : ∀ x, 0 < (C.deflate x).length)
    (hz : ∀ x, C.inflate (C.deflate x) = some x)
    (hld : ∀ r, C.loads (C.dumps r) = some r)
    (hvi : normalizeRpaVersion opts.version = Except.ok viFamily2)
    (hok : (createArchive C files opts).2 = Except.ok res)
    (hnodup : (files.map InFile.rel).Nodup)
    (hsz : ∀ f ∈ files, f.content.length = f.size) :
    rpx_listFiles C res.image res.sidecar = Except.ok (files.map InFile.rel) ∧
    ∀ f ∈ files, rpx_extractFile C res.image res.sidecar f.rel
      = Except.ok f.content := by
  obtain ⟨key, enc, hkey, henc, hhl, himg, hsc⟩ :=
    createArchive_ok_embedded C files opts viFamily2 res hvi rfl hok
  set um := chooseMarker viFamily2 opts.marker with hum
  have hws : writerStart viFamily2 = (headerPlaceholder viFamily2).length := rfl
  rw [hws] at henc hhl himg
  set recs := (layoutRecs um (headerPlaceholder viFamily2).length files).1 with hrecs
  set io := (layoutRecs um (headerPlaceholder viFamily2).length files).2 with hiodef
  have hk32 : key < 4294967296 := parseXorKey_lt _ _ _ _ hkey
  have hio16 : io < 16 ^ 16 := headerWidth_io_lt viFamily2 io key hk32 hhl
  rw [show viFamily2.usesXor = false from rfl] at henc
  rw [encodeIndex_false_ok key recs] at henc
  simp only [Except.ok.injEq] at henc
  set comp := C.deflate (C.dumps enc) with hcomp
  rw [runOps_embOpsPatched viFamily2 um files comp key hsz hhl] at himg
  set mkHL := mkHeaderLine viFamily2 io key with hmkhl
  set body := bodyBytes um files with hbody
  have hmkshape : mkHL = (strBytes "RPA-2.0" ++ 32 :: hex16 io) ++ [10] := by
    rw [hmkhl]
    unfold mkHeaderLine
    rw [show viFamily2.usesXor = false from rfl]
    simp [viFamily2, List.append_assoc]
  have himg2 : res.image = (strBytes "RPA-2.0" ++ 32 :: hex16 io)
      ++ 10 :: (body ++ comp) := by
    rw [himg, hmkshape]
    simp [List.append_assoc]
  set hdr : RHeader :=
    { version := strBytes "RPA-2.0"
    , data := strBytes "RPA-2.0" ++ 32 :: hex16 io
    , offset := some (JsNum.int (io : Int))
    , key := some (JsNum.int 0) } with hhdrdef
  have hhdr : (rpx_readHeader res.image).1 = Except.ok hdr := by
    rw [himg2]
    exact readHeader_line2 io hio16 (body ++ comp)
  have hprelen : (mkHL ++ body).length = io := by
    have hsnd := layoutRecs_snd um files (headerPlaceholder viFamily2).length hsz
    rw [← hbody] at hsnd
    rw [← hiodef] at hsnd
    simp only [List.length_append]
    rw [hhl]
    omega
  have hbufshape : res.image = (mkHL ++ body) ++ comp := by
    rw [himg]
  have hdecode :
      (match C.loads (C.dumps enc) with
        | none => Except.error ErrK.badPickle
        | some raw =>
          if jsKeyTruthy hdr.key then decodeXORIndex raw (jsKeyVal hdr.key)
          else processRawIndex raw)
      = Except.ok (recs.map (fun r =>
          (r.rel, ((r.dataOffset : Int), (r.size : Int))))) := by
    rw [hld enc]
    have htr : jsKeyTruthy hdr.key = false := by
      rw [hhdrdef]
      rfl
    rw [htr]
    simp only [Bool.false_eq_true, if_false]
    rw [← henc]
    rw [processRawIndex_map recs (fun r => ((r.dataOffset : Int), (r.size : Int)))]
  have hidx : rpx_readIndex C res.image res.sidecar
      = Except.ok (recs.map (fun r =>
          (r.rel, ((r.dataOffset : Int), (r.size : Int))))) := by
    unfold rpx_readIndex
    rw [hhdr]
    show rpx_parseIndex C res.image res.sidecar hdr = _
    rw [hbufshape, hcomp]
    rw [parseIndex_embedded C hdr (mkHL ++ body) (C.dumps enc) res.sidecar
      (by rw [hhdrdef]; show strBytes "RPA-2.0" ∉ rpaSigs1; decide)
      (by rw [hhdrdef]; simp [hprelen])
      (hzlen (C.dumps enc))
      (hz (C.dumps enc))]
    exact hdecode
  constructor
  · unfold rpx_listFiles
    rw [hidx]
    simp only [List.map_map]
    have hcf : (Prod.fst ∘ fun r : PlacedRec =>
        (r.rel, ((r.dataOffset : Int), (r.size : Int)))) = PlacedRec.rel := rfl
    rw [hcf, hrecs, layoutRecs_map_rel]
  · intro f hf
    have hslice := layout_lookup_slice um files mkHL comp hsz hnodup f hf
    rw [show mkHL.length = (headerPlaceholder viFamily2).length from hhl] at hslice
    obtain ⟨o, s, hfind, hsl⟩ := hslice
    rw [← hrecs] at hfind
    unfold rpx_extractFile
    rw [hidx]
    show (match assocFind (recs.map (fun r =>
        (r.rel, ((r.dataOffset : Int), (r.size : Int))))) f.rel with
      | none => Except.error ErrK.notFound
      | some os => Except.ok (jsSubarray res.image os.1 (os.1 + os.2)))
      = Except.ok f.content
    rw [hfind]
    show Except.ok (jsSubarray res.image ((o : Int)) ((o : Int) + (s : Int)))
      = Except.ok f.content
    rw [himg]
    exact congrArg Except.ok hsl

/-- Round-trip for family RPA-1.0 (separate sidecar index), provided the
image's first whitespace token does not spoof an RPA- header. -/
theorem c1_aux_f1 (C : Codecs) (files : List InFile) (opts : CreateOpts)
    (res : CreateResult)
    (hz : ∀ x, C.inflate (C.deflate x) = some x)
    (hld : ∀ r, C.loads (C.dumps r) = some r)
    (hvi : normalizeRpaVersion opts.version = Except.ok viFamily1)
    (hok : (createArchive C files opts).2 = Except.ok res)
    (hnodup : (files.map InFile.rel).Nodup)
    (hsz : ∀ f ∈ files, f.content.length = f.size)
    (hspoof : family1Spoofed res.image = false) :
    rpx_listFiles C res.image res.sidecar = Except.ok (files.map InFile.rel) ∧
    ∀ f ∈ files, rpx_extractFile C res.image res.sidecar f.rel
      = Except.ok f.content := by
  obtain ⟨key, enc, hkey, henc, himg, hsc⟩ :=
    createArchive_ok_separate C files opts viFamily1 res hvi rfl hok
  have hum : chooseMarker viFamily1 opts.marker = false := rfl
  have hws : writerStart viFamily1 = 0 := rfl
  rw [hum, hws] at henc himg
  set recs := (layoutRecs false 0 files).1 with hrecs
  rw [show viFamily1.usesXor = false from rfl] at henc
  rw [encodeIndex_false_ok key recs] at henc
  simp only [Except.ok.injEq] at henc
  set comp := C.deflate (C.dumps enc) with hcomp
  rw [runOps_sideOpsFull files comp hsz] at himg
  obtain ⟨hdr, hhdr, hver⟩ := readHeader_family1_safe res.image hspoof
  have hidx : rpx_readIndex C res.image res.sidecar
      = Except.ok (recs.map (fun r =>
          (r.rel, ((r.dataOffset : Int), (r.size : Int))))) := by
    unfold rpx_readIndex
    rw [hhdr]
    show rpx_parseIndex C res.image res.sidecar hdr = _
    unfold rpx_parseIndex
    rw [if_pos hver, hsc]
    show (match inflateChain C comp with
      | none => Except.error ErrK.decompressFail
      | some d =>
        match C.loads d with
        | none => Except.error ErrK.badPickle
        | some raw => processRawIndex raw) = _
    have hic : inflateChain C comp = some (C.dumps enc) := by
      rw [hcomp]
      unfold inflateChain
      rw [hz (C.dumps enc)]
    rw [hic]
    show (match C.loads (C.dumps enc) with
      | none => Except.error ErrK.badPickle
      | some raw => processRawIndex raw) = _
    rw [hld enc]
    show processRawIndex enc = _
    rw [← henc]
    rw [processRawIndex_map recs (fun r => ((r.dataOffset : Int), (r.size : Int)))]
  constructor
  · unfold rpx_listFiles
    rw [hidx]
    simp only [List.map_map]
    have hcf : (Prod.fst ∘ fun r : PlacedRec =>
        (r.rel, ((r.dataOffset : Int), (r.size : Int)))) = PlacedRec.rel := rfl
    rw [hcf, hrecs, layoutRecs_map_rel]
  · intro f hf
    have hslice := layout_lookup_slice false files [] [] hsz hnodup f hf
    simp only [List.length_nil, List.nil_append, List.append_nil] at hslice
    obtain ⟨o, s, hfind, hsl⟩ := hslice
    rw [← hrecs] at hfind
    unfold rpx_extractFile
    rw [hidx]
    show (match assocFind (recs.map (fun r =>
        (r.rel, ((r.dataOffset : Int), (r.size : Int))))) f.rel with
      | none => Except.error ErrK.notFound
      | some os => Except.ok (jsSubarray res.image os.1 (os.1 + os.2)))
      = Except.ok f.content
    rw [hfind]
    show Except.ok (jsSubarray res.image ((o : Int)) ((o : Int) + (s : Int)))
      = Except.ok f.content
    rw [himg]
    exact congrArg Except.ok hsl

/-- C1: for every non-empty list of input files packed by `createArchive`
into any supported family and read back by the reader from the resulting
archive image (and sidecar, for RPA-1.0), `listFiles` returns exactly the
input relative paths and extracting each path returns its original bytes —
amended: for the XOR families (3.0/3.2/4.0) the total layout size must stay
below `2^31` (the reader's signed 32-bit XOR breaks the round-trip above
it, claim C6), and for RPA-1.0 the payload must not spoof an `RPA-` header
in the image's first token, since the family-1 reader re-sniffs the data
file (see `C1_counterexample`). Codec hypotheses state that the zlib and
pickle round-trips of the external libraries hold. -/
theorem C1_roundtrip_amended (C : Codecs) (files : List InFile)
    (opts : CreateOpts) (vi : VersionInfo) (res : CreateResult)
    (hz : ∀ x, C.inflate (C.deflate x) = some x)
    (hzlen : ∀ x, 0 < (C.deflate x).length)
    (hld : ∀ r, C.loads (C.dumps r) = some r)
    (hvi : normalizeRpaVersion opts.version = Except.ok vi)
    (hok : (createArchive C files opts).2 = Except.ok res)
    (hnodup : (files.map InFile.rel).Nodup)
    (hsz : ∀ f ∈ files, f.content.length = f.size)
    (hbound : vi.usesXor = true →
      (layoutRecs (chooseMarker vi opts.marker) (writerStart vi) files).2
        < 2147483648)
    (hspoof : vi.separateIndex = true → family1Spoofed res.image = false) :
    rpx_listFiles C res.image res.sidecar = Except.ok (files.map InFile.rel) ∧
    ∀ f ∈ files, rpx_extractFile C res.image res.sidecar f.rel
      = Except.ok f.content := by
  rcases normalizeRpaVersion_shape opts.version vi hvi with h | h | h | h | h
  · subst h
    exact c1_aux_f1 C files opts res hz hld hvi hok hnodup hsz (hspoof rfl)
  · subst h
    exact c1_aux_f2 C files opts res hzlen hz hld hvi hok hnodup hsz
  · subst h
    exact c1_aux_xor C files opts viFamily3 res hz hzlen hld hvi rfl rfl
      (by decide) (by decide) (by decide) (by decide) (by decide) (by decide)
      (by decide) (by decide) hok hnodup hsz (hbound rfl)
  · subst h
    exact c1_aux_xor C files opts viFamily32 res hz hzlen hld hvi rfl rfl
      (by decide) (by decide) (by decide) (by decide) (by decide) (by decide)
      (by decide) (by decide) hok hnodup hsz (hbound rfl)
  · subst h
    exact c1_aux_xor C files opts viFamily4 res hz hzlen hld hvi rfl rfl
      (by decide) (by decide) (by decide) (by decide) (by decide) (by decide)
      (by decide) (by decide) hok hnodup hsz (hbound rfl)

/-- The single input file of the family-1 counterexample: its content
starts with the bytes `RPA-9.9`, which the family-1 reader re-sniffs as an
unsupported header. -/
def c1xfiles : List InFile :=
  [{ rel := [97], size := 9, content := strBytes "RPA-9.9 X" }]

/-- Options packing the counterexample as RPA-1.0. -/
def c1xopts : CreateOpts :=
  { version := "1.0", key := KeyArg.undef, pickleProto := none
  , marker := none, force := false, outputExists := false
  , sidecarExists := false }

/-- The archive the writer actually produces for the counterexample. -/
def c1xres : CreateResult :=
  match (createArchive toyCodecs c1xfiles c1xopts).2 with
  | Except.ok r => r
  | Except.error e =>
    { header := [], image := [], sidecar := none, fileCount := 0
    , dataBytes := 0, key := none, indexOffset := none }

/-- A family-1.0 archive whose single member content begins with
`RPA-9.9 ` packs successfully, but reading it back fails with an
unsupported-version error: the reader sniffs the data file's first token
as a header. The unamended claim C1 is false. -/
theorem C1_counterexample :
    (createArchive toyCodecs c1xfiles c1xopts).2 = Except.ok c1xres ∧
    rpx_listFiles toyCodecs c1xres.image c1xres.sidecar
      = Except.error ErrK.unsupported := by decide

/-- The single input file of the round-trip witness. -/
def c1wfiles : List InFile :=
  [{ rel := [97], size := 2, content := [5, 6] }]

/-- Options packing the witness archive as RPA-3.0. -/
def c1wopts : CreateOpts :=
  { version := "3.0", key := KeyArg.undef, pickleProto := none
  , marker := none, force := false, outputExists := false
  , sidecarExists := false }

/-- The archive the writer actually produces for the witness. -/
def c1wres : CreateResult :=
  match (createArchive toyCodecs c1wfiles c1wopts).2 with
  | Except.ok r => r
  | Except.error e =>
    { header := [], image := [], sidecar := none, fileCount := 0
    , dataBytes := 0, key := none, indexOffset := none }

set_option maxRecDepth 100000 in
/-- Concrete round-trip instance: a one-file RPA-3.0 archive through the
toy codecs. -/
theorem C1_roundtrip_amended_witness :
    rpx_listFiles toyCodecs c1wres.image c1wres.sidecar
      = Except.ok (c1wfiles.map InFile.rel) ∧
    ∀ f ∈ c1wfiles, rpx_extractFile toyCodecs c1wres.image c1wres.sidecar f.rel
      = Except.ok f.content :=
  C1_roundtrip_amended toyCodecs c1wfiles c1wopts viFamily3 c1wres
    (fun x => rfl) (fun x => Nat.succ_pos x.length) toyLoads_toyDumps
    (by decide) (by decide) (by decide) (by decide) (fun _ => by decide)
    (by decide)

end Rpx